import Mathlib

/-!
Shallow embedding of the checkers engine (`engine.py`, `pieces.py`, and the
advisory square decoding of `gui.py`) for verifying the natural-language
specification.

Modelling conventions:
* The 8×8 Python board (a list of 8 row lists of optional pieces) is embedded
  as a flat `List (Option Piece)` of length 64 in row-major order; square
  `(r, c)` lives at index `r * 8 + c`.
* Coordinates are pairs of `Int`, as in the Python source all coordinate
  arithmetic is on machine integers (move generation computes `row + dr`
  with `dr = ±1`, which may leave the board).  Python `//` (floor division)
  is embedded as `Int.fdiv` and `%` on integers as `Int.emod`.
* `get_piece_at` / `set_piece_at` are guarded by a bounds check: every call
  the engine makes is in bounds (the move generator checks bounds before
  indexing), and the guard makes the embedding total.
* Wall-clock durations (`time.time()` differences) are embedded as an exact
  integer duration passed as an explicit argument to `make_move`; the
  `turn_start_time` field is elapsed-time plumbing only and is dropped.
* The position-history dictionary (hash string → occurrence count) is
  embedded as the multiset (a `List`) of recorded position keys: the Python
  hash string is an injective encoding of (board contents, current player
  index), so a key is embedded as that pair, `dict[k]` is `List.count k`,
  and the dictionary increment `dict[k] = dict.get(k, 0) + 1` is an append.
* Game-status strings are kept as the literal strings the Python code
  produces.
-/

/-- Piece variant: `'M'` (Man) or `'K'` (King) in `pieces.py`. -/
inductive PieceKind where
  | man : PieceKind
  | king : PieceKind
  deriving DecidableEq, Repr

/-- A checkers piece: its variant and its owner flag `is_player1`
(player 1 = red, player 2 = black), from `pieces.py`. -/
structure Piece where
  kind : PieceKind
  is_player1 : Bool
  deriving DecidableEq, Repr

/-- The board: flat row-major list of 64 optional pieces (see module note). -/
abbrev Board := List (Option Piece)

/-- A coordinate: a (row, column) pair of integers. -/
abbrev Coord := Int × Int

/-- Bounds check `0 <= r < BOARD_DIMENSION and 0 <= c < BOARD_DIMENSION`
with `BOARD_DIMENSION = 8`, as written in `pieces.py` line 32/39. -/
def inB (r c : Int) : Bool :=
  decide (0 ≤ r) && decide (r < 8) && decide (0 ≤ c) && decide (c < 8)

/-- Flat index of an in-bounds coordinate. -/
def bIdx (p : Coord) : Nat := p.1.toNat * 8 + p.2.toNat

/-- Embeds `Game.get_piece_at` (`engine.py` 141-143): read `board[r][c]`.  Guarded by
the bounds check; all engine-internal reads are in bounds. -/
def get_piece_at (b : Board) (p : Coord) : Option Piece :=
  if inB p.1 p.2 then b.getD (bIdx p) none else none

/-- Embeds `Game.set_piece_at` (`engine.py` 145-147): write `board[r][c] = piece`.
Out-of-bounds writes (never performed by the engine) are a no-op. -/
def set_piece_at (b : Board) (p : Coord) (x : Option Piece) : Board :=
  if inB p.1 p.2 then b.set (bIdx p) x else b

/-- Embeds `Piece.is_enemy` (`pieces.py` 19-21): the other square holds a piece of
the opposite owner. -/
def is_enemy (self : Piece) (other : Option Piece) : Bool :=
  match other with
  | none => false
  | some o => o.is_player1 != self.is_player1

/-- Embeds `Piece._get_diagonal_moves` (`pieces.py` 23-42): for each direction, the
adjacent square if empty is a simple destination; if it holds an enemy and
the square beyond is in bounds and empty, that square is a jump destination. -/
def get_diagonal_moves (self : Piece) (board : Board) (start : Coord)
    (directions : List (Int × Int)) : List Coord :=
  directions.flatMap (fun d =>
    let new_row := start.1 + d.1
    let new_col := start.2 + d.2
    if inB new_row new_col then
      match get_piece_at board (new_row, new_col) with
      | none => [(new_row, new_col)]
      | some target =>
        if is_enemy self (some target) then
          let jump_row := new_row + d.1
          let jump_col := new_col + d.2
          if inB jump_row jump_col &&
              (get_piece_at board (jump_row, jump_col)).isNone then
            [(jump_row, jump_col)]
          else []
        else []
    else [])

/-- Embeds `Man.get_moves` / `King.get_moves` (`pieces.py` 51-59 and 68-71):
a Man uses its two forward diagonals (player 1 moves toward decreasing
rows), a King all four diagonals. -/
def Piece.get_moves (self : Piece) (board : Board) (start : Coord) : List Coord :=
  match self.kind with
  | .man =>
    if self.is_player1 then
      get_diagonal_moves self board start [(-1, -1), (-1, 1)]
    else
      get_diagonal_moves self board start [(1, -1), (1, 1)]
  | .king =>
    get_diagonal_moves self board start [(1, 1), (1, -1), (-1, 1), (-1, -1)]

/-- Embeds `Move` (`engine.py` 18-41): the historical record of one executed move.
`captured_coords` embeds `captured_coords or end_coords`. -/
structure Move where
  piece_moved : Piece
  start_coords : Coord
  end_coords : Coord
  piece_captured : Option Piece
  is_promotion : Bool
  promoted_piece : Option Piece
  turn_duration : Int
  captured_coords : Coord
  deriving DecidableEq, Repr

/-- Embeds `Move.is_jump` (`engine.py` 39-41): row distance is exactly 2. -/
def Move.is_jump (m : Move) : Bool :=
  (m.start_coords.1 - m.end_coords.1).natAbs == 2

/-- A position key: what `Game._get_position_hash` (`engine.py` 301-305)
encodes — every square's piece variant and colour plus the current player
index.  The hash string is an injective encoding of this pair, so the pair
itself is the embedded key. -/
structure PosKey where
  board : Board
  current_player_index : Nat
  deriving DecidableEq, Repr

/-- Embeds `Game` (`engine.py` 54-71): the aggregate state.  `players` is the fixed
list [Red (player 1), Black]; `turn_start_time` is dropped (see module
note); `position_history` is the multiset of recorded position keys. -/
structure Game where
  board : Board
  current_player_index : Nat
  game_state : String
  move_history : List Move
  red_captured : List Piece
  black_captured : List Piece
  red_turn_time : Int
  black_turn_time : Int
  position_history : List PosKey
  deriving DecidableEq, Repr

/-- Embeds `self.players[self.current_player_index].is_player1`; players[0] is Red
(player 1), players[1] is Black.  The index is always 0 or 1. -/
def currentIsPlayer1 (g : Game) : Bool :=
  g.current_player_index == 0

/-- Embeds `Game._get_position_hash` (`engine.py` 301-305), embedded as the pair it
injectively encodes. -/
def get_position_hash (g : Game) : PosKey :=
  ⟨g.board, g.current_player_index⟩

/-- Embeds `Game._update_position_history` (`engine.py` 307-310): increment the
occurrence count of the current position key (append to the multiset). -/
def update_position_history (g : Game) : Game :=
  { g with position_history := g.position_history ++ [get_position_hash g] }

/-- Embeds `Game._iterate_squares` (`engine.py` 312-316): all 64 squares in
row-major order. -/
def iter_squares : List Coord :=
  (List.range 8).flatMap (fun r => (List.range 8).map (fun c => (Int.ofNat r, Int.ofNat c)))

/-- Embeds `Game._get_all_jumps_for_player` (`engine.py` 289-299): every
(start, destination) pair of row-distance 2 produced by `get_moves` of a
piece of the given player, scanning squares in row-major order. -/
def get_all_jumps_for_player (g : Game) (pIsPlayer1 : Bool) : List (Coord × Coord) :=
  iter_squares.flatMap (fun p =>
    match get_piece_at g.board p with
    | some piece =>
      if piece.is_player1 == pIsPlayer1 then
        (piece.get_moves g.board p).filterMap (fun mc =>
          if (p.1 - mc.1).natAbs == 2 then some (p, mc) else none)
      else []
    | none => [])

/-- Embeds `Game.get_legal_moves_for_piece` (`engine.py` 125-139): empty if no piece
at the coordinate or not the mover's; otherwise, if the mover has any jump
anywhere, exactly this piece's jump destinations; else the full
`get_moves` result. -/
def get_legal_moves_for_piece (g : Game) (coords : Coord) : List Coord :=
  match get_piece_at g.board coords with
  | none => []
  | some piece =>
    if piece.is_player1 != currentIsPlayer1 g then []
    else
      let all_jumps := get_all_jumps_for_player g (currentIsPlayer1 g)
      if all_jumps.isEmpty then
        piece.get_moves g.board coords
      else
        (all_jumps.filter (fun mv => mv.1 == coords)).map (fun mv => mv.2)

/-- Count of the current player's opponent's pieces, the first scan of
`Game._update_game_status` (`engine.py` 263-268). -/
def opponent_piece_count (g : Game) : Nat :=
  iter_squares.countP (fun p =>
    match get_piece_at g.board p with
    | some piece => piece.is_player1 != currentIsPlayer1 g
    | none => false)

/-- Whether the current player has a legal move for any piece, the second
scan of `Game._update_game_status` (`engine.py` 274-281). -/
def has_legal_move (g : Game) : Bool :=
  iter_squares.any (fun p =>
    match get_piece_at g.board p with
    | some piece =>
      piece.is_player1 == currentIsPlayer1 g && !(get_legal_moves_for_piece g p).isEmpty
    | none => false)

/-- Embeds `Game._update_game_status` (`engine.py` 254-287): threefold repetition
first, then all-opponent-pieces-captured, then no-legal-moves, else active. -/
def update_game_status (g : Game) : Game :=
  if 3 ≤ g.position_history.count (get_position_hash g) then
    { g with game_state := "draw by threefold repetition" }
  else if opponent_piece_count g == 0 then
    { g with game_state :=
        (if currentIsPlayer1 g then "Red" else "Black") ++
          " wins - All opponent pieces captured" }
  else if has_legal_move g then
    { g with game_state := "active" }
  else
    { g with game_state :=
        (if currentIsPlayer1 g then "Black" else "Red") ++ " wins - no legal moves" }

/-- Midpoint of a jump, `((r1+r2)//2, (c1+c2)//2)` with Python floor
division (`engine.py` 210-212). -/
def jump_mid (s e : Coord) : Coord :=
  (Int.fdiv (s.1 + e.1) 2, Int.fdiv (s.2 + e.2) 2)

/-- Embeds `Game._execute_board_move` (`engine.py` 201-240): if the row distance is
2, capture whatever sits on the midpoint (appending it to the capture list
of the mover's opponent's colour); promote a Man reaching its far row;
write the resulting piece at `end`, clear `start`; return the updated
game (board and capture lists) and the `Move` record. -/
def execute_board_move (g : Game) (piece : Piece) (s e : Coord) (elapsed : Int) :
    Game × Move :=
  let captured_coords : Option Coord :=
    if (s.1 - e.1).natAbs == 2 then some (jump_mid s e) else none
  let captured_piece : Option Piece :=
    match captured_coords with
    | some m => get_piece_at g.board m
    | none => none
  let b0 : Board :=
    match captured_coords with
    | some m => set_piece_at g.board m none
    | none => g.board
  let red_cap : List Piece :=
    match captured_piece with
    | some cp => if piece.is_player1 then g.red_captured else g.red_captured ++ [cp]
    | none => g.red_captured
  let black_cap : List Piece :=
    match captured_piece with
    | some cp => if piece.is_player1 then g.black_captured ++ [cp] else g.black_captured
    | none => g.black_captured
  let is_promotion : Bool :=
    piece.kind == .man &&
      ((piece.is_player1 && e.1 == 0) || (!piece.is_player1 && e.1 == 7))
  let promoted_piece : Option Piece :=
    if is_promotion then some ⟨.king, piece.is_player1⟩ else none
  let b1 := set_piece_at b0 e
    (some (if is_promotion then ⟨.king, piece.is_player1⟩ else piece))
  let b2 := set_piece_at b1 s none
  ({ g with board := b2, red_captured := red_cap, black_captured := black_cap },
   ⟨piece, s, e, captured_piece, is_promotion, promoted_piece, elapsed,
    captured_coords.getD e⟩)

/-- Embeds `Game._update_game_after_move` (`engine.py` 242-252): append to history,
accumulate the mover's timer (by the pre-flip player index), flip the turn,
record the new position, recompute status. -/
def update_game_after_move (g : Game) (mv : Move) : Game :=
  let g1 := { g with move_history := g.move_history ++ [mv] }
  let g2 :=
    if g1.current_player_index == 0 then
      { g1 with red_turn_time := g1.red_turn_time + mv.turn_duration }
    else
      { g1 with black_turn_time := g1.black_turn_time + mv.turn_duration }
  let g3 := { g2 with current_player_index := 1 - g2.current_player_index }
  update_game_status (update_position_history g3)

/-- Embeds `Game.make_move` (`engine.py` 73-83): fail (returning `false` and the
unchanged state) if no piece at `start` or it is not the mover's; otherwise
execute the board move and the post-move bookkeeping, returning `true`. -/
def make_move (g : Game) (s e : Coord) (elapsed : Int) : Bool × Game :=
  match get_piece_at g.board s with
  | none => (false, g)
  | some piece =>
    if piece.is_player1 != currentIsPlayer1 g then (false, g)
    else
      let r := execute_board_move g piece s e elapsed
      (true, update_game_after_move r.1 r.2)

/-- Embeds `Game.undo_last_move` (`engine.py` 85-123): no-op on empty history;
otherwise pop the last move, restore the moved piece at `start` (demoting a
promoted King back to a Man), clear `end`, restore a captured piece at the
jump midpoint and pop the corresponding capture list, subtract the recorded
duration from the mover's timer, flip the turn back, and recompute status
(the position-history multiset is NOT decremented). -/
def undo_last_move (g : Game) : Game :=
  match g.move_history.getLast? with
  | none => g
  | some mv =>
    let g1 := { g with move_history := g.move_history.dropLast }
    let b1 := set_piece_at g1.board mv.start_coords (some mv.piece_moved)
    let b2 :=
      if mv.is_promotion then
        set_piece_at (set_piece_at b1 mv.start_coords (some ⟨.man, mv.piece_moved.is_player1⟩))
          mv.end_coords none
      else
        set_piece_at b1 mv.end_coords none
    let b3 :=
      match mv.piece_captured with
      | some cp =>
        if mv.is_jump then
          set_piece_at b2 (jump_mid mv.start_coords mv.end_coords) (some cp)
        else b2
      | none => b2
    let red_cap :=
      match mv.piece_captured with
      | some _ => if mv.piece_moved.is_player1 then g1.red_captured else g1.red_captured.dropLast
      | none => g1.red_captured
    let black_cap :=
      match mv.piece_captured with
      | some _ => if mv.piece_moved.is_player1 then g1.black_captured.dropLast else g1.black_captured
      | none => g1.black_captured
    let red_t :=
      if mv.piece_moved.is_player1 then g1.red_turn_time - mv.turn_duration else g1.red_turn_time
    let black_t :=
      if mv.piece_moved.is_player1 then g1.black_turn_time else g1.black_turn_time - mv.turn_duration
    update_game_status
      { g1 with
          board := b3
          red_captured := red_cap
          black_captured := black_cap
          red_turn_time := red_t
          black_turn_time := black_t
          current_player_index := 1 - g1.current_player_index }

/-- Embeds `Game._place_pieces` (`engine.py` 187-199): black men on the dark squares
of rows 0-2, red men on the dark squares of rows 5-7. -/
def place_pieces (b : Board) : Board :=
  let b1 := ((List.range 3).flatMap
      (fun r => (List.range 8).map (fun c => (Int.ofNat r, Int.ofNat c)))).foldl
    (fun acc p => if (p.1 + p.2) % 2 == 1 then set_piece_at acc p (some ⟨.man, false⟩) else acc) b
  ((List.range 3).flatMap
      (fun r => (List.range 8).map (fun c => (Int.ofNat (r + 5), Int.ofNat c)))).foldl
    (fun acc p => if (p.1 + p.2) % 2 == 1 then set_piece_at acc p (some ⟨.man, true⟩) else acc) b1

/-- Square parity test `(r + c) % 2 == 1` (dark squares are the playable
ones), as written at `engine.py` 171/192/198. -/
def is_playable (p : Coord) : Bool :=
  (p.1 + p.2) % 2 == 1

/-- Square number `(r * 4) + (c // 2) + 1` of a playable square
(`engine.py` 172). -/
def pdn_square_num (p : Coord) : Nat :=
  p.1.toNat * 4 + p.2.toNat / 2 + 1

/-- One side's occupied-square strings, in row-major scan order, kings
prefixed with `K` — the lists `red_pieces` / `black_pieces` built by
`Game.to_pdn` (`engine.py` 166-182). -/
def pdn_side_strings (g : Game) (side : Bool) : List String :=
  (iter_squares.filter (fun p =>
      is_playable p &&
        match get_piece_at g.board p with
        | some piece => piece.is_player1 == side
        | none => false)).map
    (fun p =>
      (match get_piece_at g.board p with
       | some piece => if piece.kind == .king then "K" ++ toString (pdn_square_num p) else toString (pdn_square_num p)
       | none => ""))

/-- Embeds `Game.to_pdn` (`engine.py` 162-184): the bracketed position string
`[<turn>:<red squares>:<black squares>]`, built by one row-major fold over
the squares. -/
def to_pdn (g : Game) : String :=
  let turn := if currentIsPlayer1 g then "R" else "B"
  let acc := iter_squares.foldl
    (fun (acc : List String × List String) p =>
      if is_playable p then
        match get_piece_at g.board p with
        | some piece =>
          let piece_str := toString (pdn_square_num p)
          let piece_str := if piece.kind == .king then "K" ++ piece_str else piece_str
          if piece.is_player1 then (acc.1 ++ [piece_str], acc.2)
          else (acc.1, acc.2 ++ [piece_str])
        | none => acc
      else acc)
    ([], [])
  "[" ++ turn ++ ":" ++ String.intercalate "," acc.1 ++ ":" ++
    String.intercalate "," acc.2 ++ "]"

/-- Embeds `CheckersGUI._square_to_coords` (`gui.py` 203-206): map an advisory
square number 1-32 back to board coordinates; Python `//` and `%` are
`Int.fdiv` / `Int.emod`. -/
def square_to_coords (square : Int) : Coord :=
  let row := Int.fdiv (square - 1) 4
  let col := (Int.emod (square - 1) 4) * 2 + (1 - Int.emod row 2)
  (row, col)

/-- Embeds `Game.__init__` (`engine.py` 57-71): the empty aggregate, initial piece
placement, and the initial position recorded once. -/
def initial_game : Game :=
  update_position_history
    { board := place_pieces (List.replicate 64 none)
      current_player_index := 0
      game_state := "active"
      move_history := []
      red_captured := []
      black_captured := []
      red_turn_time := 0
      black_turn_time := 0
      position_history := [] }

/-!  Basic facts about the board representation. -/

/-- Unfolding of the bounds check into propositions. -/
theorem inB_iff {r c : Int} : inB r c = true ↔ 0 ≤ r ∧ r < 8 ∧ 0 ≤ c ∧ c < 8 := by
  simp [inB, Bool.and_eq_true, decide_eq_true_eq, and_assoc]

/-- Setting a square never changes the board's length. -/
theorem length_set_piece_at (b : Board) (q : Coord) (x : Option Piece) :
    (set_piece_at b q x).length = b.length := by
  unfold set_piece_at
  split <;> simp

/-- Reading an out-of-bounds coordinate gives `none`. -/
theorem get_piece_at_oob {b : Board} {p : Coord} (h : ¬ inB p.1 p.2 = true) :
    get_piece_at b p = none := by
  unfold get_piece_at
  simp [h]

/-- Reading a piece succeeds only in bounds. -/
theorem inB_of_get_some {b : Board} {p : Coord} {x : Piece}
    (h : get_piece_at b p = some x) : inB p.1 p.2 = true := by
  by_cases hb : inB p.1 p.2 = true
  · exact hb
  · rw [get_piece_at_oob hb] at h
    cases h

/-- The flat index of an in-bounds coordinate is below 64. -/
theorem bIdx_lt {p : Coord} (h : inB p.1 p.2 = true) : bIdx p < 64 := by
  rcases inB_iff.mp h with ⟨h1, h2, h3, h4⟩
  unfold bIdx
  omega

/-- The flat index is injective on in-bounds coordinates. -/
theorem bIdx_inj {p q : Coord} (hp : inB p.1 p.2 = true) (hq : inB q.1 q.2 = true)
    (h : bIdx p = bIdx q) : p = q := by
  rcases inB_iff.mp hp with ⟨hp1, hp2, hp3, hp4⟩
  rcases inB_iff.mp hq with ⟨hq1, hq2, hq3, hq4⟩
  unfold bIdx at h
  have h1 : p.1 = q.1 := by omega
  have h2 : p.2 = q.2 := by omega
  exact Prod.ext h1 h2

/-- Reading back the square just written. -/
theorem get_set_self {b : Board} {p : Coord} (x : Option Piece)
    (hlen : b.length = 64) (hp : inB p.1 p.2 = true) :
    get_piece_at (set_piece_at b p x) p = x := by
  unfold get_piece_at set_piece_at
  simp only [hp, if_true]
  have : bIdx p < b.length := by rw [hlen]; exact bIdx_lt hp
  simp [List.getD, List.getElem?_set_self, this]

/-- Writing one square leaves every other square unchanged. -/
theorem get_set_other {b : Board} {p q : Coord} (x : Option Piece) (hne : p ≠ q) :
    get_piece_at (set_piece_at b q x) p = get_piece_at b p := by
  by_cases hq : inB q.1 q.2 = true
  · by_cases hp : inB p.1 p.2 = true
    · have hidx : bIdx q ≠ bIdx p := fun h => hne (bIdx_inj hp hq h.symm)
      unfold get_piece_at set_piece_at
      simp only [hp, hq, if_true]
      simp [List.getD, List.getElem?_set_ne hidx]
    · rw [get_piece_at_oob hp, get_piece_at_oob hp]
  · unfold set_piece_at
    simp [hq]

/-- Characterization of `get_diagonal_moves` membership: each destination is
either an adjacent empty square or the empty landing square of a jump over
an enemy piece, one diagonal step further. -/
theorem diag_moves_spec {self : Piece} {b : Board} {start mv : Coord}
    {dirs : List (Int × Int)} (h : mv ∈ get_diagonal_moves self b start dirs) :
    ∃ d ∈ dirs,
      (mv = (start.1 + d.1, start.2 + d.2) ∧ inB mv.1 mv.2 = true ∧
        get_piece_at b mv = none) ∨
      (mv = (start.1 + 2 * d.1, start.2 + 2 * d.2) ∧ inB mv.1 mv.2 = true ∧
        get_piece_at b mv = none ∧ inB (start.1 + d.1) (start.2 + d.2) = true ∧
        ∃ tp, get_piece_at b (start.1 + d.1, start.2 + d.2) = some tp ∧
          tp.is_player1 ≠ self.is_player1) := by
  unfold get_diagonal_moves at h
  rw [List.mem_flatMap] at h
  obtain ⟨d, hd, hmem⟩ := h
  refine ⟨d, hd, ?_⟩
  simp only at hmem
  by_cases hb1 : inB (start.1 + d.1) (start.2 + d.2) = true
  · rw [if_pos hb1] at hmem
    cases hgp : get_piece_at b (start.1 + d.1, start.2 + d.2) with
    | none =>
      rw [hgp] at hmem
      simp only [List.mem_singleton] at hmem
      subst hmem
      exact Or.inl ⟨rfl, hb1, hgp⟩
    | some target =>
      rw [hgp] at hmem
      simp only at hmem
      by_cases hen : is_enemy self (some target) = true
      · rw [if_pos hen] at hmem
        by_cases hjb : (inB (start.1 + d.1 + d.1) (start.2 + d.2 + d.2) &&
            (get_piece_at b (start.1 + d.1 + d.1, start.2 + d.2 + d.2)).isNone) = true
        · rw [if_pos hjb] at hmem
          simp only [List.mem_singleton] at hmem
          subst hmem
          rw [Bool.and_eq_true] at hjb
          refine Or.inr ⟨by ring_nf, ?_, ?_, hb1, target, rfl, ?_⟩
          · simpa using hjb.1
          · simpa [Option.isNone_iff_eq_none] using hjb.2
          · simpa [is_enemy, bne_iff_ne] using hen
        · rw [if_neg hjb] at hmem
          cases hmem
      · rw [if_neg hen] at hmem
        cases hmem
  · rw [if_neg hb1] at hmem
    cases hmem

/-- Characterization of `Piece.get_moves` membership: every destination comes
from a unit diagonal direction, as a simple step to an empty square or as a
jump over an enemy to an empty square. -/
theorem get_moves_spec {self : Piece} {b : Board} {start mv : Coord}
    (h : mv ∈ self.get_moves b start) :
    ∃ d : Int × Int, (d.1 = 1 ∨ d.1 = -1) ∧ (d.2 = 1 ∨ d.2 = -1) ∧
      ((mv = (start.1 + d.1, start.2 + d.2) ∧ inB mv.1 mv.2 = true ∧
          get_piece_at b mv = none) ∨
        (mv = (start.1 + 2 * d.1, start.2 + 2 * d.2) ∧ inB mv.1 mv.2 = true ∧
          get_piece_at b mv = none ∧ inB (start.1 + d.1) (start.2 + d.2) = true ∧
          ∃ tp, get_piece_at b (start.1 + d.1, start.2 + d.2) = some tp ∧
            tp.is_player1 ≠ self.is_player1)) := by
  unfold Piece.get_moves at h
  rcases hk : self.kind with _ | _ <;> rw [hk] at h
  · by_cases hp : self.is_player1 = true
    · rw [if_pos hp] at h
      obtain ⟨d, hd, hcase⟩ := diag_moves_spec h
      refine ⟨d, ?_, ?_, hcase⟩ <;> fin_cases hd <;> simp
    · rw [if_neg hp] at h
      obtain ⟨d, hd, hcase⟩ := diag_moves_spec h
      refine ⟨d, ?_, ?_, hcase⟩ <;> fin_cases hd <;> simp
  · obtain ⟨d, hd, hcase⟩ := diag_moves_spec h
    refine ⟨d, ?_, ?_, hcase⟩ <;> fin_cases hd <;> simp

/-- A generated destination square is empty and in bounds. -/
theorem get_moves_dest_empty {self : Piece} {b : Board} {start mv : Coord}
    (h : mv ∈ self.get_moves b start) :
    inB mv.1 mv.2 = true ∧ get_piece_at b mv = none := by
  obtain ⟨d, _, _, hc⟩ := get_moves_spec h
  rcases hc with ⟨_, h1, h2⟩ | ⟨_, h1, h2, _⟩ <;> exact ⟨h1, h2⟩

/-- A generated destination differs from the start by one or two rows, and by
the same number of columns as rows. -/
theorem get_moves_diff {self : Piece} {b : Board} {start mv : Coord}
    (h : mv ∈ self.get_moves b start) :
    (start.1 - mv.1).natAbs = (start.2 - mv.2).natAbs ∧
      ((start.1 - mv.1).natAbs = 1 ∨ (start.1 - mv.1).natAbs = 2) := by
  obtain ⟨d, hd1, hd2, hc⟩ := get_moves_spec h
  rcases hc with ⟨he, _⟩ | ⟨he, _⟩ <;> subst he <;>
    rcases hd1 with h1 | h1 <;> rcases hd2 with h2 | h2 <;>
    dsimp only <;> omega

/-- A generated jump destination (row distance 2) jumps over an enemy piece
sitting exactly at `jump_mid`. -/
theorem get_moves_jump_mid {self : Piece} {b : Board} {start mv : Coord}
    (h : mv ∈ self.get_moves b start)
    (h2 : (start.1 - mv.1).natAbs = 2) :
    ∃ tp, get_piece_at b (jump_mid start mv) = some tp ∧
      tp.is_player1 ≠ self.is_player1 := by
  obtain ⟨d, hd1, hd2, hc⟩ := get_moves_spec h
  rcases hc with ⟨he, _⟩ | ⟨he, _, _, _, tp, htp, hne⟩
  · subst he
    rcases hd1 with h1 | h1 <;> simp [h1] at h2
  · subst he
    refine ⟨tp, ?_, hne⟩
    have hmid : jump_mid start (start.1 + 2 * d.1, start.2 + 2 * d.2) =
        (start.1 + d.1, start.2 + d.2) := by
      unfold jump_mid
      have e1 : start.1 + (start.1 + 2 * d.1, start.2 + 2 * d.2).1 = 2 * (start.1 + d.1) := by
        dsimp only
        ring
      have e2 : start.2 + (start.1 + 2 * d.1, start.2 + 2 * d.2).2 = 2 * (start.2 + d.2) := by
        dsimp only
        ring
      rw [e1, e2, Int.mul_fdiv_cancel_left, Int.mul_fdiv_cancel_left] <;> decide
    rw [hmid]
    exact htp

/-- Membership in the square iterator is exactly the bounds check. -/
theorem mem_iter_squares {p : Coord} : p ∈ iter_squares ↔ inB p.1 p.2 = true := by
  unfold iter_squares
  rw [List.mem_flatMap]
  constructor
  · rintro ⟨r, hr, hm⟩
    rw [List.mem_map] at hm
    obtain ⟨c, hc, rfl⟩ := hm
    rw [List.mem_range] at hr
    rw [List.mem_range] at hc
    rw [inB_iff]
    refine ⟨Int.natCast_nonneg r, ?_, Int.natCast_nonneg c, ?_⟩ <;> simp <;> omega
  · intro h
    rcases inB_iff.mp h with ⟨h1, h2, h3, h4⟩
    refine ⟨p.1.toNat, ?_, ?_⟩
    · rw [List.mem_range]
      omega
    · rw [List.mem_map]
      refine ⟨p.2.toNat, ?_, ?_⟩
      · rw [List.mem_range]
        omega
      · have e1 : Int.ofNat p.1.toNat = p.1 := by
          rw [Int.ofNat_eq_natCast]
          omega
        have e2 : Int.ofNat p.2.toNat = p.2 := by
          rw [Int.ofNat_eq_natCast]
          omega
        rw [e1, e2]

/-- The square iterator has no duplicates. -/
theorem iter_squares_nodup : iter_squares.Nodup := by decide

/-- If only one element of a duplicate-free list contributes to a `flatMap`,
the result is that element's contribution. -/
theorem flatMap_eq_single {α β : Type} {l : List α} {x : α} {f : α → List β}
    (hnd : l.Nodup) (hx : x ∈ l) (hother : ∀ y ∈ l, y ≠ x → f y = []) :
    l.flatMap f = f x := by
  induction l with
  | nil => cases hx
  | cons a t ih =>
    rw [List.flatMap_cons]
    rcases List.mem_cons.mp hx with rfl | hxt
    · have : ∀ y ∈ t, f y = [] := by
        intro y hy
        exact hother y (List.mem_cons_of_mem _ hy) (fun h => (List.nodup_cons.mp hnd).1 (h ▸ hy))
      have : t.flatMap f = [] := List.flatMap_eq_nil_iff.mpr this
      rw [this, List.append_nil]
    · have ha : f a = [] :=
        hother a (List.mem_cons_self a t) (fun h => (List.nodup_cons.mp hnd).1 (h ▸ hxt))
      rw [ha, List.nil_append]
      exact ih (List.nodup_cons.mp hnd).2 hxt fun y hy => hother y (List.mem_cons_of_mem _ hy)

/-- Dropping the start component of a piece's tagged jump list yields the
row-distance-2 filter of its move list. -/
theorem map_snd_jump_tags (l : List Coord) (c : Coord) (pred : Coord → Bool) :
    ((l.filterMap (fun mc => if pred mc then some (c, mc) else none)).map
      (fun mv : Coord × Coord => mv.2)) = l.filter pred := by
  induction l with
  | nil => rfl
  | cons a t ih =>
    by_cases h : pred a = true
    · simp [List.filterMap_cons, h, ih]
    · simp [List.filterMap_cons, List.filter_cons, h, ih]

/-- Every recorded jump was generated at its own start square, by a piece of
the scanned side, with row distance 2. -/
theorem all_jumps_mem {g : Game} {side : Bool} {j : Coord × Coord}
    (h : j ∈ get_all_jumps_for_player g side) :
    ∃ piece, get_piece_at g.board j.1 = some piece ∧ piece.is_player1 = side ∧
      j.2 ∈ piece.get_moves g.board j.1 ∧ (j.1.1 - j.2.1).natAbs = 2 := by
  unfold get_all_jumps_for_player at h
  rw [List.mem_flatMap] at h
  obtain ⟨p, _, hmem⟩ := h
  cases hgp : get_piece_at g.board p with
  | none =>
    rw [hgp] at hmem
    simp only at hmem
    cases hmem
  | some piece =>
    rw [hgp] at hmem
    simp only at hmem
    by_cases hside : (piece.is_player1 == side) = true
    · rw [if_pos hside] at hmem
      rw [List.mem_filterMap] at hmem
      obtain ⟨mc, hmc, heq⟩ := hmem
      by_cases hdist : ((p.1 - mc.1).natAbs == 2) = true
      · rw [if_pos hdist] at heq
        cases heq
        exact ⟨piece, hgp, by simpa using hside, hmc, by simpa using hdist⟩
      · rw [if_neg hdist] at heq
        cases heq
    · rw [if_neg hside] at hmem
      cases hmem

/-- Filtering the side's jump list down to one start square yields exactly
that square's piece's tagged jumps. -/
theorem all_jumps_filter_start {g : Game} {side : Bool} {coords : Coord} {piece : Piece}
    (hp : get_piece_at g.board coords = some piece)
    (hside : piece.is_player1 = side) :
    (get_all_jumps_for_player g side).filter (fun mv => mv.1 == coords) =
      (piece.get_moves g.board coords).filterMap
        (fun mc => if (coords.1 - mc.1).natAbs == 2 then some (coords, mc) else none) := by
  unfold get_all_jumps_for_player
  rw [List.filter_flatMap]
  have hmemc : coords ∈ iter_squares := mem_iter_squares.mpr (inB_of_get_some hp)
  rw [flatMap_eq_single iter_squares_nodup hmemc ?_]
  · rw [hp]
    simp only [hside, beq_self_eq_true, if_true]
    rw [List.filter_eq_self]
    intro j hj
    rw [List.mem_filterMap] at hj
    obtain ⟨mc, _, heq⟩ := hj
    by_cases hdist : ((coords.1 - mc.1).natAbs == 2) = true
    · rw [if_pos hdist] at heq
      cases heq
      simp
    · rw [if_neg hdist] at heq
      cases heq
  · intro y _ hy
    rw [List.filter_eq_nil_iff]
    intro j hj
    cases hgp : get_piece_at g.board y with
    | none =>
      rw [hgp] at hj
      simp only at hj
      cases hj
    | some pc =>
      rw [hgp] at hj
      simp only at hj
      by_cases hs : (pc.is_player1 == side) = true
      · rw [if_pos hs] at hj
        rw [List.mem_filterMap] at hj
        obtain ⟨mc, _, heq⟩ := hj
        by_cases hdist : ((y.1 - mc.1).natAbs == 2) = true
        · rw [if_pos hdist] at heq
          cases heq
          simpa using hy
        · rw [if_neg hdist] at heq
          cases heq
      · rw [if_neg hs] at hj
        cases hj

/-- When the mover's side has a jump somewhere, this piece's legal moves are
exactly the row-distance-2 entries of its own move generation. -/
theorem legal_moves_jump_case {g : Game} {coords : Coord} {piece : Piece}
    (hp : get_piece_at g.board coords = some piece)
    (hside : piece.is_player1 = currentIsPlayer1 g)
    (hj : (get_all_jumps_for_player g (currentIsPlayer1 g)).isEmpty = false) :
    get_legal_moves_for_piece g coords =
      (piece.get_moves g.board coords).filter
        (fun mc => (coords.1 - mc.1).natAbs == 2) := by
  unfold get_legal_moves_for_piece
  rw [hp]
  simp only [hside, bne_self_eq_false, Bool.false_eq_true, if_false, hj,
    Bool.false_eq_true]
  rw [all_jumps_filter_start hp hside, map_snd_jump_tags]

/-- When the mover's side has no jump anywhere, this piece's legal moves are
its full move generation. -/
theorem legal_moves_no_jump_case {g : Game} {coords : Coord} {piece : Piece}
    (hp : get_piece_at g.board coords = some piece)
    (hside : piece.is_player1 = currentIsPlayer1 g)
    (hj : (get_all_jumps_for_player g (currentIsPlayer1 g)).isEmpty = true) :
    get_legal_moves_for_piece g coords = piece.get_moves g.board coords := by
  unfold get_legal_moves_for_piece
  rw [hp]
  simp only [hside, bne_self_eq_false, Bool.false_eq_true, if_false, hj, if_true]

/-- A legal destination is always one of the piece's generated moves, and the
piece belongs to the side to move. -/
theorem legal_moves_sub {g : Game} {coords mv : Coord}
    (h : mv ∈ get_legal_moves_for_piece g coords) :
    ∃ piece, get_piece_at g.board coords = some piece ∧
      piece.is_player1 = currentIsPlayer1 g ∧ mv ∈ piece.get_moves g.board coords := by
  cases hgp : get_piece_at g.board coords with
  | none =>
    unfold get_legal_moves_for_piece at h
    rw [hgp] at h
    cases h
  | some piece =>
    by_cases hside : piece.is_player1 = currentIsPlayer1 g
    · refine ⟨piece, rfl, hside, ?_⟩
      cases hj : (get_all_jumps_for_player g (currentIsPlayer1 g)).isEmpty with
      | true =>
        rw [legal_moves_no_jump_case hgp hside hj] at h
        exact h
      | false =>
        rw [legal_moves_jump_case hgp hside hj] at h
        exact (List.mem_filter.mp h).1
    · unfold get_legal_moves_for_piece at h
      rw [hgp] at h
      simp only [bne_iff_ne, ne_eq, hside, not_false_eq_true, if_true] at h
      cases h

/-- A small position used to instantiate theorems: red to move, red men at
(4,3), (5,0) and (1,2), a black man at (3,2); red's (4,3) man has the only
jump, over (3,2) to the empty (2,1). -/
def demo_board : Board :=
  set_piece_at (set_piece_at (set_piece_at (set_piece_at (List.replicate 64 none)
    (4, 3) (some ⟨.man, true⟩)) (3, 2) (some ⟨.man, false⟩)) (5, 0) (some ⟨.man, true⟩))
    (1, 2) (some ⟨.man, true⟩)

/-- A game around `demo_board`, red to move. -/
def demo_game : Game :=
  { board := demo_board
    current_player_index := 0
    game_state := "active"
    move_history := []
    red_captured := []
    black_captured := []
    red_turn_time := 0
    black_turn_time := 0
    position_history := [] }

/-- C1: with a jump available somewhere for the side to move,
`get_legal_moves_for_piece` on any of its pieces returns exactly that
piece's own jump destinations (the row-distance-2 entries of its move
generation, hence `[]` for a piece with no jump of its own); only with no
jump anywhere does it return the full move-generation result. -/
theorem forced_capture_legal_moves (g : Game) (coords : Coord) (piece : Piece)
    (hp : get_piece_at g.board coords = some piece)
    (hside : piece.is_player1 = currentIsPlayer1 g) :
    (get_all_jumps_for_player g (currentIsPlayer1 g) ≠ [] →
      get_legal_moves_for_piece g coords =
        (piece.get_moves g.board coords).filter
          (fun mc => (coords.1 - mc.1).natAbs == 2)) ∧
    (get_all_jumps_for_player g (currentIsPlayer1 g) = [] →
      get_legal_moves_for_piece g coords = piece.get_moves g.board coords) := by
  constructor
  · intro hne
    have hj : (get_all_jumps_for_player g (currentIsPlayer1 g)).isEmpty = false := by
      rw [List.isEmpty_eq_false]
      exact hne
    exact legal_moves_jump_case hp hside hj
  · intro hnil
    have hj : (get_all_jumps_for_player g (currentIsPlayer1 g)).isEmpty = true := by
      rw [List.isEmpty_iff]
      exact hnil
    exact legal_moves_no_jump_case hp hside hj

/-- C1 witness: in `demo_game` red has a jump, the jumping piece's legal
moves are its jump destinations, and the jump-less piece at (5,0) gets the
empty list. -/
theorem forced_capture_legal_moves_witness :
    (get_all_jumps_for_player demo_game (currentIsPlayer1 demo_game) ≠ [] ∧
      get_legal_moves_for_piece demo_game (4, 3) =
        ((Piece.mk .man true).get_moves demo_game.board (4, 3)).filter
          (fun mc => (((4 : Int), (3 : Int)).1 - mc.1).natAbs == 2)) ∧
    (get_legal_moves_for_piece demo_game (5, 0) =
        ((Piece.mk .man true).get_moves demo_game.board (5, 0)).filter
          (fun mc => (((5 : Int), (0 : Int)).1 - mc.1).natAbs == 2) ∧
      get_legal_moves_for_piece demo_game (5, 0) = []) := by
  refine ⟨⟨by decide, ?_⟩, ?_, by decide⟩
  · exact (forced_capture_legal_moves demo_game (4, 3) ⟨.man, true⟩ (by decide)
      (by decide)).1 (by decide)
  · exact (forced_capture_legal_moves demo_game (5, 0) ⟨.man, true⟩ (by decide)
      (by decide)).1 (by decide)

/-!  Status recomputation only rewrites the status field. -/

theorem update_game_status_board (g : Game) :
    (update_game_status g).board = g.board := by
  unfold update_game_status
  split
  · rfl
  split
  · rfl
  split <;> rfl

theorem update_game_status_index (g : Game) :
    (update_game_status g).current_player_index = g.current_player_index := by
  unfold update_game_status
  split
  · rfl
  split
  · rfl
  split <;> rfl

theorem update_game_status_history (g : Game) :
    (update_game_status g).move_history = g.move_history := by
  unfold update_game_status
  split
  · rfl
  split
  · rfl
  split <;> rfl

theorem update_game_status_red_captured (g : Game) :
    (update_game_status g).red_captured = g.red_captured := by
  unfold update_game_status
  split
  · rfl
  split
  · rfl
  split <;> rfl

theorem update_game_status_black_captured (g : Game) :
    (update_game_status g).black_captured = g.black_captured := by
  unfold update_game_status
  split
  · rfl
  split
  · rfl
  split <;> rfl

theorem update_game_status_red_time (g : Game) :
    (update_game_status g).red_turn_time = g.red_turn_time := by
  unfold update_game_status
  split
  · rfl
  split
  · rfl
  split <;> rfl

theorem update_game_status_black_time (g : Game) :
    (update_game_status g).black_turn_time = g.black_turn_time := by
  unfold update_game_status
  split
  · rfl
  split
  · rfl
  split <;> rfl

theorem update_game_status_pos_history (g : Game) :
    (update_game_status g).position_history = g.position_history := by
  unfold update_game_status
  split
  · rfl
  split
  · rfl
  split <;> rfl

/-- C7: `make_move` fails and leaves the whole state untouched exactly when
there is no piece at `start` or it is not the mover's; in every other case —
with no legality validation of the destination at all — it returns success. -/
theorem make_move_guard (g : Game) (s e : Coord) (t : Int) :
    ((get_piece_at g.board s = none ∨
        ∃ p, get_piece_at g.board s = some p ∧ p.is_player1 ≠ currentIsPlayer1 g) →
      make_move g s e t = (false, g)) ∧
    (∀ p, get_piece_at g.board s = some p → p.is_player1 = currentIsPlayer1 g →
      (make_move g s e t).1 = true) := by
  constructor
  · rintro (hnone | ⟨p, hp, hne⟩)
    · unfold make_move
      rw [hnone]
    · unfold make_move
      rw [hp]
      simp only [bne_iff_ne, ne_eq, hne, not_false_eq_true, if_true]
  · intro p hp hside
    unfold make_move
    rw [hp]
    simp [hside]

/-- C7 witness: an empty start square and an enemy-owned start square both
fail without touching the state, and a mover-owned start square succeeds
(the destination (7,7) is not even a legal move). -/
theorem make_move_guard_witness :
    make_move demo_game (0, 0) (4, 4) 3 = (false, demo_game) ∧
    make_move demo_game (3, 2) (4, 1) 3 = (false, demo_game) ∧
    (make_move demo_game (4, 3) (7, 7) 3).1 = true := by
  refine ⟨?_, ?_, ?_⟩
  · exact (make_move_guard demo_game (0, 0) (4, 4) 3).1 (Or.inl (by decide))
  · exact (make_move_guard demo_game (3, 2) (4, 1) 3).1
      (Or.inr ⟨⟨.man, false⟩, by decide, by decide⟩)
  · exact (make_move_guard demo_game (4, 3) (7, 7) 3).2 ⟨.man, true⟩ (by decide) (by decide)

/-- Successful `make_move` is the post-move bookkeeping applied to the
executed board move. -/
theorem make_move_success {g : Game} {s e : Coord} {t : Int} {p : Piece}
    (hs : get_piece_at g.board s = some p)
    (hside : p.is_player1 = currentIsPlayer1 g) :
    make_move g s e t =
      (true, update_game_after_move (execute_board_move g p s e t).1
        (execute_board_move g p s e t).2) := by
  unfold make_move
  rw [hs]
  simp [hside]

/-- Field accounting of the post-move bookkeeping. -/
theorem update_game_after_move_fields (g : Game) (mv : Move) :
    (update_game_after_move g mv).red_captured = g.red_captured ∧
    (update_game_after_move g mv).black_captured = g.black_captured ∧
    (update_game_after_move g mv).move_history = g.move_history ++ [mv] ∧
    (update_game_after_move g mv).current_player_index = 1 - g.current_player_index ∧
    (update_game_after_move g mv).board = g.board ∧
    (update_game_after_move g mv).position_history =
      g.position_history ++ [⟨g.board, 1 - g.current_player_index⟩] ∧
    (update_game_after_move g mv).red_turn_time =
      (if g.current_player_index == 0 then g.red_turn_time + mv.turn_duration
       else g.red_turn_time) ∧
    (update_game_after_move g mv).black_turn_time =
      (if g.current_player_index == 0 then g.black_turn_time
       else g.black_turn_time + mv.turn_duration) := by
  unfold update_game_after_move update_position_history
  split <;>
    simp_all [update_game_status_red_captured, update_game_status_black_captured,
      update_game_status_history, update_game_status_index, update_game_status_board,
      update_game_status_pos_history, update_game_status_red_time,
      update_game_status_black_time, get_position_hash]

/-- Field accounting of `execute_board_move` when the midpoint of a
row-distance-2 submission is empty: nothing is captured. -/
theorem execute_empty_mid {g : Game} {s e : Coord} {t : Int} {p : Piece}
    (hbeq : ((s.1 - e.1).natAbs == 2) = true)
    (hmid : get_piece_at g.board (jump_mid s e) = none) :
    (execute_board_move g p s e t).1.red_captured = g.red_captured ∧
    (execute_board_move g p s e t).1.black_captured = g.black_captured ∧
    (execute_board_move g p s e t).1.move_history = g.move_history ∧
    (execute_board_move g p s e t).1.current_player_index = g.current_player_index ∧
    (execute_board_move g p s e t).2.piece_captured = none ∧
    (execute_board_move g p s e t).2.turn_duration = t ∧
    (execute_board_move g p s e t).2.is_jump = true := by
  unfold execute_board_move
  simp [hbeq, hmid, Move.is_jump]

/-- C10: a mover-owned row-distance-2 submission over an EMPTY midpoint is
executed as a success with no capture: neither captured list changes and
the recorded move has no captured piece yet classifies as a jump. -/
theorem empty_mid_jump_executes (g : Game) (s e : Coord) (t : Int) (p : Piece)
    (hs : get_piece_at g.board s = some p)
    (hside : p.is_player1 = currentIsPlayer1 g)
    (hdist : (s.1 - e.1).natAbs = 2)
    (hmid : get_piece_at g.board (jump_mid s e) = none) :
    (make_move g s e t).1 = true ∧
    (make_move g s e t).2.red_captured = g.red_captured ∧
    (make_move g s e t).2.black_captured = g.black_captured ∧
    ∃ mv, (make_move g s e t).2.move_history.getLast? = some mv ∧
      mv.piece_captured = none ∧ mv.is_jump = true := by
  have hbeq : ((s.1 - e.1).natAbs == 2) = true := by simpa using hdist
  rw [make_move_success hs hside]
  obtain ⟨he1, he2, he3, _, he5, _, he7⟩ :=
    execute_empty_mid (g := g) (s := s) (e := e) (t := t) (p := p) hbeq hmid
  obtain ⟨hu1, hu2, hu3, _⟩ :=
    update_game_after_move_fields (execute_board_move g p s e t).1
      (execute_board_move g p s e t).2
  refine ⟨rfl, ?_, ?_, (execute_board_move g p s e t).2, ?_, he5, he7⟩
  · rw [hu1, he1]
  · rw [hu2, he2]
  · rw [hu3, he3]
    simp

/-- C10 witness: in `demo_game` red submits (5,0)→(3,2), row distance 2 over
the empty (4,1): executed as a success, no capture recorded, classified as
a jump. -/
theorem empty_mid_jump_executes_witness :
    (make_move demo_game (5, 0) (3, 2) 2).1 = true ∧
    (make_move demo_game (5, 0) (3, 2) 2).2.red_captured = demo_game.red_captured ∧
    (make_move demo_game (5, 0) (3, 2) 2).2.black_captured = demo_game.black_captured ∧
    ∃ mv, (make_move demo_game (5, 0) (3, 2) 2).2.move_history.getLast? = some mv ∧
      mv.piece_captured = none ∧ mv.is_jump = true :=
  empty_mid_jump_executes demo_game (5, 0) (3, 2) 2 ⟨.man, true⟩ (by decide) (by decide)
    (by decide) (by decide)

/-- Doubling a floor-halving of an even integer is the identity. -/
theorem two_mul_fdiv_two {a : Int} (h : a % 2 = 0) : 2 * Int.fdiv a 2 = a := by
  obtain ⟨k, rfl⟩ : ∃ k, a = 2 * k := ⟨a / 2, by omega⟩
  rw [Int.mul_fdiv_cancel_left]
  decide

/-- The midpoint row of a row-distance-2 move is the average row. -/
theorem jump_mid_row {s e : Coord} (hdist : (s.1 - e.1).natAbs = 2) :
    2 * (jump_mid s e).1 = s.1 + e.1 := by
  unfold jump_mid
  dsimp only
  exact two_mul_fdiv_two (by omega)

/-- Field accounting of `execute_board_move` for a capturing jump. -/
theorem execute_capture_fields {g : Game} {s e : Coord} {t : Int} {p cap : Piece}
    (hbeq : ((s.1 - e.1).natAbs == 2) = true)
    (hmid : get_piece_at g.board (jump_mid s e) = some cap) :
    (∃ q : Piece, (execute_board_move g p s e t).1.board =
      set_piece_at (set_piece_at (set_piece_at g.board (jump_mid s e) none) e (some q))
        s none) ∧
    (execute_board_move g p s e t).1.red_captured =
      (if p.is_player1 then g.red_captured else g.red_captured ++ [cap]) ∧
    (execute_board_move g p s e t).1.black_captured =
      (if p.is_player1 then g.black_captured ++ [cap] else g.black_captured) ∧
    (execute_board_move g p s e t).2.piece_captured = some cap ∧
    (execute_board_move g p s e t).1.move_history = g.move_history ∧
    (execute_board_move g p s e t).1.current_player_index = g.current_player_index := by
  unfold execute_board_move
  simp only [hbeq, if_true, hmid]
  refine ⟨⟨_, rfl⟩, ?_, ?_, ?_, ?_, ?_⟩ <;> first | rfl | trivial

/-- C5: after `make_move` executes a jump over an occupied midpoint, the
midpoint is empty, the captured piece is appended to the list of pieces the
mover's opponent has lost (black's list for a red mover), and every square
other than start, end and midpoint is unchanged. -/
theorem capture_removal_frame (g : Game) (s e : Coord) (t : Int) (p cap : Piece)
    (hlen : g.board.length = 64)
    (hs : get_piece_at g.board s = some p)
    (hside : p.is_player1 = currentIsPlayer1 g)
    (hdist : (s.1 - e.1).natAbs = 2)
    (hmid : get_piece_at g.board (jump_mid s e) = some cap) :
    get_piece_at (make_move g s e t).2.board (jump_mid s e) = none ∧
    (if p.is_player1 then
        (make_move g s e t).2.black_captured = g.black_captured ++ [cap] ∧
          (make_move g s e t).2.red_captured = g.red_captured
      else
        (make_move g s e t).2.red_captured = g.red_captured ++ [cap] ∧
          (make_move g s e t).2.black_captured = g.black_captured) ∧
    ∀ q : Coord, q ≠ s → q ≠ e → q ≠ jump_mid s e →
      get_piece_at (make_move g s e t).2.board q = get_piece_at g.board q := by
  have hbeq : ((s.1 - e.1).natAbs == 2) = true := by simpa using hdist
  have hrow := jump_mid_row hdist
  have hmidne_s : jump_mid s e ≠ s := by
    intro h
    rw [h] at hrow
    omega
  have hmidne_e : jump_mid s e ≠ e := by
    intro h
    rw [h] at hrow
    omega
  have hinB_mid : inB (jump_mid s e).1 (jump_mid s e).2 = true := inB_of_get_some hmid
  rw [make_move_success hs hside]
  obtain ⟨⟨q, hb⟩, hrc, hbc, _, _, _⟩ :=
    execute_capture_fields (g := g) (s := s) (e := e) (t := t) (p := p) hbeq hmid
  obtain ⟨hu1, hu2, _, _, hu5, _⟩ :=
    update_game_after_move_fields (execute_board_move g p s e t).1
      (execute_board_move g p s e t).2
  refine ⟨?_, ?_, ?_⟩
  · rw [hu5, hb]
    rw [get_set_other _ hmidne_s, get_set_other _ hmidne_e]
    exact get_set_self none hlen hinB_mid
  · cases hp1 : p.is_player1 with
    | true =>
      simp only [if_true]
      constructor
      · rw [hu2, hbc, hp1]
        simp
      · rw [hu1, hrc, hp1]
        simp
    | false =>
      simp only [Bool.false_eq_true, if_false]
      constructor
      · rw [hu1, hrc, hp1]
        simp
      · rw [hu2, hbc, hp1]
        simp
  · intro q2 hq2s hq2e hq2m
    rw [hu5, hb, get_set_other _ hq2s, get_set_other _ hq2e, get_set_other _ hq2m]

/-- C5 witness: red's (4,3) man jumps (3,2) to (2,1) in `demo_game`; the
captured black man lands in black's captured list and only start, end, and
midpoint change. -/
theorem capture_removal_frame_witness :
    get_piece_at (make_move demo_game (4, 3) (2, 1) 1).2.board
        (jump_mid (4, 3) (2, 1)) = none ∧
    (if (Piece.mk .man true).is_player1 then
        (make_move demo_game (4, 3) (2, 1) 1).2.black_captured =
            demo_game.black_captured ++ [⟨.man, false⟩] ∧
          (make_move demo_game (4, 3) (2, 1) 1).2.red_captured = demo_game.red_captured
      else
        (make_move demo_game (4, 3) (2, 1) 1).2.red_captured =
            demo_game.red_captured ++ [⟨.man, false⟩] ∧
          (make_move demo_game (4, 3) (2, 1) 1).2.black_captured =
            demo_game.black_captured) ∧
    ∀ q : Coord, q ≠ (4, 3) → q ≠ (2, 1) → q ≠ jump_mid (4, 3) (2, 1) →
      get_piece_at (make_move demo_game (4, 3) (2, 1) 1).2.board q =
        get_piece_at demo_game.board q :=
  capture_removal_frame demo_game (4, 3) (2, 1) 1 ⟨.man, true⟩ ⟨.man, false⟩
    (by decide) (by decide) (by decide) (by decide) (by decide)

/-- The board after `execute_board_move`, in closed form: the original board
(with the midpoint cleared on a row-distance-2 submission), the resulting
piece (promoted if the promotion condition holds) written at `end`, and
`start` cleared. -/
theorem execute_board_eq (g : Game) (p : Piece) (s e : Coord) (t : Int) :
    (execute_board_move g p s e t).1.board =
      set_piece_at (set_piece_at
        (if ((s.1 - e.1).natAbs == 2) = true then
          set_piece_at g.board (jump_mid s e) none
        else g.board) e
        (some (if (p.kind == PieceKind.man &&
            (p.is_player1 && e.1 == 0 || !p.is_player1 && e.1 == 7)) then
          ⟨.king, p.is_player1⟩ else p))) s none := by
  unfold execute_board_move
  by_cases hd : ((s.1 - e.1).natAbs == 2) = true <;>
    simp only [hd, if_true, Bool.false_eq_true, if_false]

/-- The pre-write intermediate board keeps the original length. -/
theorem mid_board_length (g : Game) (s e : Coord) :
    (if ((s.1 - e.1).natAbs == 2) = true then
        set_piece_at g.board (jump_mid s e) none
      else g.board).length = g.board.length := by
  split
  · exact length_set_piece_at _ _ _
  · rfl

/-- The pre-write intermediate board agrees with the original off the
midpoint. -/
theorem mid_board_get (g : Game) (s e : Coord) {q : Coord} (hq : q ≠ jump_mid s e) :
    get_piece_at (if ((s.1 - e.1).natAbs == 2) = true then
        set_piece_at g.board (jump_mid s e) none
      else g.board) q = get_piece_at g.board q := by
  split
  · exact get_set_other _ hq
  · rfl

/-- The recorded promotion flag is literally the promotion condition. -/
theorem execute_promotion_flag (g : Game) (p : Piece) (s e : Coord) (t : Int) :
    (execute_board_move g p s e t).2.is_promotion =
      (p.kind == PieceKind.man &&
        (p.is_player1 && e.1 == 0 || !p.is_player1 && e.1 == 7)) := rfl

/-- C6: a Man reaching its far row (row 0 for red, row 7 for black) is
written as a King of the same owner by that same move and the move's
promotion flag is set; a Man ending elsewhere, and a King anywhere, is
written unchanged with no flag; and the jump classification and capture
bookkeeping of the executed move do not depend on the moved piece's kind. -/
theorem promotion_semantics (g : Game) (s e : Coord) (t : Int) (p : Piece)
    (hlen : g.board.length = 64)
    (hs : get_piece_at g.board s = some p)
    (hside : p.is_player1 = currentIsPlayer1 g)
    (hne : s ≠ e) (hinBe : inB e.1 e.2 = true) :
    make_move g s e t =
      (true, update_game_after_move (execute_board_move g p s e t).1
        (execute_board_move g p s e t).2) ∧
    ((p.kind = .man ∧ ((p.is_player1 = true ∧ e.1 = 0) ∨ (p.is_player1 = false ∧ e.1 = 7))) →
      get_piece_at (execute_board_move g p s e t).1.board e = some ⟨.king, p.is_player1⟩ ∧
      (execute_board_move g p s e t).2.is_promotion = true) ∧
    ((p.kind = .man ∧ ¬((p.is_player1 = true ∧ e.1 = 0) ∨ (p.is_player1 = false ∧ e.1 = 7))) →
      get_piece_at (execute_board_move g p s e t).1.board e = some p ∧
      (execute_board_move g p s e t).2.is_promotion = false) ∧
    (p.kind = .king →
      get_piece_at (execute_board_move g p s e t).1.board e = some p ∧
      (execute_board_move g p s e t).2.is_promotion = false) ∧
    (∀ k k' : PieceKind,
      (execute_board_move g ⟨k, p.is_player1⟩ s e t).2.piece_captured =
        (execute_board_move g ⟨k', p.is_player1⟩ s e t).2.piece_captured ∧
      (execute_board_move g ⟨k, p.is_player1⟩ s e t).2.is_jump =
        (execute_board_move g ⟨k', p.is_player1⟩ s e t).2.is_jump ∧
      (execute_board_move g ⟨k, p.is_player1⟩ s e t).1.red_captured =
        (execute_board_move g ⟨k', p.is_player1⟩ s e t).1.red_captured ∧
      (execute_board_move g ⟨k, p.is_player1⟩ s e t).1.black_captured =
        (execute_board_move g ⟨k', p.is_player1⟩ s e t).1.black_captured ∧
      (∀ q : Coord, q ≠ e →
        get_piece_at (execute_board_move g ⟨k, p.is_player1⟩ s e t).1.board q =
          get_piece_at (execute_board_move g ⟨k', p.is_player1⟩ s e t).1.board q)) := by
  have hlen0' : (if ((s.1 - e.1).natAbs == 2) = true then
      set_piece_at g.board (jump_mid s e) none
    else g.board).length = 64 := by rw [mid_board_length, hlen]
  have hes : e ≠ s := Ne.symm hne
  refine ⟨make_move_success hs hside, ?_, ?_, ?_, ?_⟩
  · rintro ⟨hk, hrow⟩
    constructor
    · rw [execute_board_eq, get_set_other _ hes, get_set_self _ hlen0' hinBe]
      rcases hrow with ⟨h1, h2⟩ | ⟨h1, h2⟩ <;> simp [hk, h1, h2]
    · rw [execute_promotion_flag]
      rcases hrow with ⟨h1, h2⟩ | ⟨h1, h2⟩ <;> simp [hk, h1, h2]
  · rintro ⟨hk, hrow⟩
    have hcond : (p.kind == PieceKind.man &&
        (p.is_player1 && e.1 == 0 || !p.is_player1 && e.1 == 7)) = false := by
      cases hp1 : p.is_player1 with
      | true =>
        have h0 : e.1 ≠ 0 := fun h => hrow (Or.inl ⟨hp1, h⟩)
        simp [hk, hp1, h0]
      | false =>
        have h7 : e.1 ≠ 7 := fun h => hrow (Or.inr ⟨hp1, h⟩)
        simp [hk, hp1, h7]
    constructor
    · rw [execute_board_eq, get_set_other _ hes, get_set_self _ hlen0' hinBe, hcond]
      simp
    · rw [execute_promotion_flag, hcond]
  · intro hk
    have hcond : (p.kind == PieceKind.man &&
        (p.is_player1 && e.1 == 0 || !p.is_player1 && e.1 == 7)) = false := by
      simp [hk]
    constructor
    · rw [execute_board_eq, get_set_other _ hes, get_set_self _ hlen0' hinBe, hcond]
      simp
    · rw [execute_promotion_flag, hcond]
  · intro k k'
    refine ⟨rfl, rfl, rfl, rfl, ?_⟩
    intro q hq
    rw [execute_board_eq, execute_board_eq]
    by_cases hqs : q = s
    · subst hqs
      by_cases hbs : inB q.1 q.2 = true
      · rw [get_set_self _ (by rw [length_set_piece_at, mid_board_length, hlen]) hbs,
          get_set_self _ (by rw [length_set_piece_at, mid_board_length, hlen]) hbs]
      · rw [get_piece_at_oob hbs, get_piece_at_oob hbs]
    · rw [get_set_other _ hqs, get_set_other _ hqs, get_set_other _ hq, get_set_other _ hq]

/-- C6 witness: in `demo_game` the red man on (1,2) executed to (0,1) is
written as a red King with the promotion flag set. -/
theorem promotion_semantics_witness :
    get_piece_at (execute_board_move demo_game ⟨.man, true⟩ (1, 2) (0, 1) 0).1.board
        (0, 1) = some ⟨.king, true⟩ ∧
    (execute_board_move demo_game ⟨.man, true⟩ (1, 2) (0, 1) 0).2.is_promotion = true :=
  (promotion_semantics demo_game (1, 2) (0, 1) 0 ⟨.man, true⟩ (by decide) (by decide)
      (by decide) (by decide) (by decide)).2.1 ⟨rfl, Or.inl ⟨rfl, rfl⟩⟩

/-- The source's any-legal-move scan is false exactly when every coordinate
has an empty legal-move list (non-mover and empty squares trivially so). -/
theorem has_legal_move_false_iff (g : Game) :
    has_legal_move g = false ↔ ∀ q : Coord, get_legal_moves_for_piece g q = [] := by
  unfold has_legal_move
  rw [List.any_eq_false]
  constructor
  · intro h q
    cases hgp : get_piece_at g.board q with
    | none =>
      unfold get_legal_moves_for_piece
      rw [hgp]
    | some pc =>
      have hq : q ∈ iter_squares := mem_iter_squares.mpr (inB_of_get_some hgp)
      have hpred := h q hq
      rw [hgp] at hpred
      simp only [Bool.and_eq_true, Bool.not_eq_true, not_and] at hpred
      by_cases hpl : pc.is_player1 = currentIsPlayer1 g
      · have hemp := hpred (by simp [hpl])
        have hemp2 : (get_legal_moves_for_piece g q).isEmpty = true := by simpa using hemp
        exact List.isEmpty_iff.mp hemp2
      · unfold get_legal_moves_for_piece
        rw [hgp]
        simp [bne_iff_ne, hpl]
  · intro h q _
    cases hgp : get_piece_at g.board q with
    | none => simp
    | some pc =>
      simp only [Bool.and_eq_true, Bool.not_eq_true, not_and]
      intro _
      rw [h q]
      rfl

/-- C4: the recomputed status follows the exact priority order: threefold
repetition (count at least 3) first, then opponent-has-no-pieces (side to
move wins), then mover-has-no-legal-moves (other side wins), else active. -/
theorem status_priority (g : Game) :
    (3 ≤ g.position_history.count (get_position_hash g) →
      (update_game_status g).game_state = "draw by threefold repetition") ∧
    (g.position_history.count (get_position_hash g) < 3 →
      opponent_piece_count g = 0 →
      (update_game_status g).game_state =
        (if currentIsPlayer1 g then "Red" else "Black") ++
          " wins - All opponent pieces captured") ∧
    (g.position_history.count (get_position_hash g) < 3 →
      opponent_piece_count g ≠ 0 →
      (∀ q : Coord, get_legal_moves_for_piece g q = []) →
      (update_game_status g).game_state =
        (if currentIsPlayer1 g then "Black" else "Red") ++ " wins - no legal moves") ∧
    (g.position_history.count (get_position_hash g) < 3 →
      opponent_piece_count g ≠ 0 →
      (∃ q : Coord, get_legal_moves_for_piece g q ≠ []) →
      (update_game_status g).game_state = "active") := by
  refine ⟨?_, ?_, ?_, ?_⟩
  · intro h1
    unfold update_game_status
    rw [if_pos h1]
  · intro h1 h2
    unfold update_game_status
    rw [if_neg (by omega), if_pos (by simp [h2])]
  · intro h1 h2 h3
    have hl : has_legal_move g = false := (has_legal_move_false_iff g).mpr h3
    unfold update_game_status
    rw [if_neg (by omega), if_neg (by simp [h2]), if_neg (by simp [hl])]
  · intro h1 h2 h3
    have hl : has_legal_move g = true := by
      cases hb : has_legal_move g with
      | true => rfl
      | false =>
        obtain ⟨q, hq⟩ := h3
        exact absurd ((has_legal_move_false_iff g).mp hb q) hq
    unfold update_game_status
    rw [if_neg (by omega), if_neg (by simp [h2]), if_pos hl]

/-- Emptiness of every legal-move list follows from emptiness on the 64
board squares, since off-board coordinates hold no piece. -/
theorem legal_all_empty_of_bounded (g : Game)
    (h : ∀ r : Nat, r < 8 → ∀ c : Nat, c < 8 →
      get_legal_moves_for_piece g (Int.ofNat r, Int.ofNat c) = []) :
    ∀ q : Coord, get_legal_moves_for_piece g q = [] := by
  intro q
  cases hgp : get_piece_at g.board q with
  | none =>
    unfold get_legal_moves_for_piece
    rw [hgp]
  | some pc =>
    have hb := inB_of_get_some hgp
    rcases inB_iff.mp hb with ⟨h1, h2, h3, h4⟩
    have hq : q = (Int.ofNat q.1.toNat, Int.ofNat q.2.toNat) := by
      rw [Int.ofNat_eq_natCast, Int.ofNat_eq_natCast]
      exact Prod.ext (by omega) (by omega)
    rw [hq]
    exact h q.1.toNat (by omega) q.2.toNat (by omega)

/-- A position with only red pieces on the board, red to move. -/
def all_captured_game : Game :=
  { demo_game with
      board := set_piece_at (List.replicate 64 none) (4, 3) (some ⟨.man, true⟩) }

/-- A stuck position: red's only man sits on (0,1) with no move, black still
has a piece, red to move. -/
def stuck_game : Game :=
  { demo_game with
      board := set_piece_at (set_piece_at (List.replicate 64 none)
        (0, 1) (some ⟨.man, true⟩)) (7, 0) (some ⟨.man, false⟩) }

/-- A position whose key already occurs three times in the repetition
multiset. -/
def repetition_game : Game :=
  { demo_game with
      position_history := List.replicate 3 ⟨demo_game.board, 0⟩ }

/-- C4 witness: each of the four status branches, instantiated. -/
theorem status_priority_witness :
    (update_game_status repetition_game).game_state = "draw by threefold repetition" ∧
    (update_game_status all_captured_game).game_state =
      (if currentIsPlayer1 all_captured_game then "Red" else "Black") ++
        " wins - All opponent pieces captured" ∧
    (update_game_status stuck_game).game_state =
      (if currentIsPlayer1 stuck_game then "Black" else "Red") ++ " wins - no legal moves" ∧
    (update_game_status demo_game).game_state = "active" := by
  refine ⟨?_, ?_, ?_, ?_⟩
  · exact (status_priority repetition_game).1 (by decide)
  · exact (status_priority all_captured_game).2.1 (by decide) (by decide)
  · exact (status_priority stuck_game).2.2.1 (by decide) (by decide)
      (legal_all_empty_of_bounded stuck_game (by decide))
  · exact (status_priority demo_game).2.2.2 (by decide) (by decide)
      ⟨(4, 3), by decide⟩

/-- The `Move` record produced by `execute_board_move`, in closed form. -/
theorem execute_move_record (g : Game) (p : Piece) (s e : Coord) (t : Int) :
    (execute_board_move g p s e t).2 =
      ⟨p, s, e,
        (if ((s.1 - e.1).natAbs == 2) = true then
          get_piece_at g.board (jump_mid s e) else none),
        (p.kind == PieceKind.man &&
          (p.is_player1 && e.1 == 0 || !p.is_player1 && e.1 == 7)),
        (if (p.kind == PieceKind.man &&
            (p.is_player1 && e.1 == 0 || !p.is_player1 && e.1 == 7)) then
          some ⟨.king, p.is_player1⟩ else none),
        t,
        (if ((s.1 - e.1).natAbs == 2) = true then
          some (jump_mid s e) else none).getD e⟩ := by
  unfold execute_board_move
  by_cases hd : ((s.1 - e.1).natAbs == 2) = true <;>
    simp only [hd, if_true, Bool.false_eq_true, if_false]

/-- The captured-piece lists produced by `execute_board_move`, in closed
form: the mover's opponent's list receives the captured piece. -/
theorem execute_lists (g : Game) (p : Piece) (s e : Coord) (t : Int) :
    (execute_board_move g p s e t).1.red_captured =
      (match (execute_board_move g p s e t).2.piece_captured with
        | some cp => if p.is_player1 then g.red_captured else g.red_captured ++ [cp]
        | none => g.red_captured) ∧
    (execute_board_move g p s e t).1.black_captured =
      (match (execute_board_move g p s e t).2.piece_captured with
        | some cp => if p.is_player1 then g.black_captured ++ [cp] else g.black_captured
        | none => g.black_captured) := by
  unfold execute_board_move
  by_cases hd : ((s.1 - e.1).natAbs == 2) = true <;>
    simp only [hd, if_true, Bool.false_eq_true, if_false] <;> exact ⟨trivial, trivial⟩

/-- Closed form of `undo_last_move` on a game whose history ends with `mv`. -/
theorem undo_last_move_eq (G : Game) (mv : Move)
    (h : G.move_history.getLast? = some mv) :
    undo_last_move G =
      update_game_status
        { G with
            move_history := G.move_history.dropLast
            board :=
              (match mv.piece_captured with
                | some cp =>
                  if mv.is_jump then
                    set_piece_at
                      (if mv.is_promotion then
                        set_piece_at (set_piece_at
                          (set_piece_at G.board mv.start_coords (some mv.piece_moved))
                          mv.start_coords (some ⟨.man, mv.piece_moved.is_player1⟩))
                          mv.end_coords none
                      else
                        set_piece_at
                          (set_piece_at G.board mv.start_coords (some mv.piece_moved))
                          mv.end_coords none)
                      (jump_mid mv.start_coords mv.end_coords) (some cp)
                  else
                    (if mv.is_promotion then
                      set_piece_at (set_piece_at
                        (set_piece_at G.board mv.start_coords (some mv.piece_moved))
                        mv.start_coords (some ⟨.man, mv.piece_moved.is_player1⟩))
                        mv.end_coords none
                    else
                      set_piece_at
                        (set_piece_at G.board mv.start_coords (some mv.piece_moved))
                        mv.end_coords none)
                | none =>
                  (if mv.is_promotion then
                    set_piece_at (set_piece_at
                      (set_piece_at G.board mv.start_coords (some mv.piece_moved))
                      mv.start_coords (some ⟨.man, mv.piece_moved.is_player1⟩))
                      mv.end_coords none
                  else
                    set_piece_at
                      (set_piece_at G.board mv.start_coords (some mv.piece_moved))
                      mv.end_coords none))
            red_captured :=
              (match mv.piece_captured with
                | some _ =>
                  if mv.piece_moved.is_player1 then G.red_captured
                  else G.red_captured.dropLast
                | none => G.red_captured)
            black_captured :=
              (match mv.piece_captured with
                | some _ =>
                  if mv.piece_moved.is_player1 then G.black_captured.dropLast
                  else G.black_captured
                | none => G.black_captured)
            red_turn_time :=
              (if mv.piece_moved.is_player1 then G.red_turn_time - mv.turn_duration
               else G.red_turn_time)
            black_turn_time :=
              (if mv.piece_moved.is_player1 then G.black_turn_time
               else G.black_turn_time - mv.turn_duration)
            current_player_index := 1 - G.current_player_index } := by
  unfold undo_last_move
  rw [h]

/-- Setting a square on a 64-square board keeps it 64 squares. -/
theorem length_set64 {b : Board} (h : b.length = 64) (q : Coord) (x : Option Piece) :
    (set_piece_at b q x).length = 64 := by
  rw [length_set_piece_at]
  exact h

/-- Fields of `execute_board_move`'s game that the executor never touches. -/
theorem execute_untouched (g : Game) (p : Piece) (s e : Coord) (t : Int) :
    (execute_board_move g p s e t).1.move_history = g.move_history ∧
    (execute_board_move g p s e t).1.current_player_index = g.current_player_index ∧
    (execute_board_move g p s e t).1.red_turn_time = g.red_turn_time ∧
    (execute_board_move g p s e t).1.black_turn_time = g.black_turn_time ∧
    (execute_board_move g p s e t).1.position_history = g.position_history ∧
    (execute_board_move g p s e t).1.board.length = g.board.length := by
  unfold execute_board_move
  by_cases hd : ((s.1 - e.1).natAbs == 2) = true <;>
    simp only [hd, if_true, Bool.false_eq_true, if_false] <;>
    refine ⟨?_, ?_, ?_, ?_, ?_, ?_⟩ <;> first | trivial | simp [length_set_piece_at]

/-- Reading the undo reconstruction layer (moved piece back at `start`,
demoted on promotion, `end` cleared): `end` is empty, `start` holds the
pre-move piece, everything else reads the underlying board. -/
theorem undo_b2_get {B : Board} (hlenB : B.length = 64) {s e : Coord} {p : Piece}
    (promo : Bool) (hpk : promo = true → p.kind = PieceKind.man)
    (hinBs : inB s.1 s.2 = true) (hinBe : inB e.1 e.2 = true) (hse : s ≠ e) :
    ∀ q : Coord,
      get_piece_at (if promo then
          set_piece_at (set_piece_at (set_piece_at B s (some p)) s
            (some ⟨.man, p.is_player1⟩)) e none
        else set_piece_at (set_piece_at B s (some p)) e none) q =
      (if q = e then none else if q = s then some p else get_piece_at B q) := by
  intro q
  cases promo with
  | false =>
    simp only [Bool.false_eq_true, if_false]
    by_cases hqe : q = e
    · subst hqe
      rw [get_set_self _ (length_set64 hlenB _ _) hinBe, if_pos rfl]
    · rw [get_set_other _ hqe, if_neg hqe]
      by_cases hqs : q = s
      · subst hqs
        rw [get_set_self _ hlenB hinBs, if_pos rfl]
      · rw [get_set_other _ hqs, if_neg hqs]
  | true =>
    have hk : p.kind = PieceKind.man := hpk rfl
    have hp_eq : (⟨.man, p.is_player1⟩ : Piece) = p := by
      cases p
      simp_all
    simp only [if_true]
    by_cases hqe : q = e
    · subst hqe
      rw [get_set_self _ (length_set64 (length_set64 hlenB _ _) _ _) hinBe, if_pos rfl]
    · rw [get_set_other _ hqe, if_neg hqe]
      by_cases hqs : q = s
      · subst hqs
        rw [get_set_self _ (length_set64 hlenB _ _) hinBs, if_pos rfl, hp_eq]
      · rw [get_set_other _ hqs, get_set_other _ hqs, if_neg hqs]

/-- C2: executing a legal move and undoing it restores the original piece
placement on every square (a promoted King reverting to a Man), the turn
owner, both cumulative timers, the move history, and both captured lists —
for simple, capturing, and promoting moves alike. -/
theorem undo_round_trip (g : Game) (s e : Coord) (t : Int)
    (hlen : g.board.length = 64)
    (hidx : g.current_player_index ≤ 1)
    (hmem : e ∈ get_legal_moves_for_piece g s) :
    (∀ q : Coord, get_piece_at (undo_last_move (make_move g s e t).2).board q =
      get_piece_at g.board q) ∧
    (undo_last_move (make_move g s e t).2).current_player_index =
      g.current_player_index ∧
    (undo_last_move (make_move g s e t).2).red_turn_time = g.red_turn_time ∧
    (undo_last_move (make_move g s e t).2).black_turn_time = g.black_turn_time ∧
    (undo_last_move (make_move g s e t).2).move_history = g.move_history ∧
    (undo_last_move (make_move g s e t).2).red_captured = g.red_captured ∧
    (undo_last_move (make_move g s e t).2).black_captured = g.black_captured := by
  obtain ⟨p, hs, hside, hmv⟩ := legal_moves_sub hmem
  obtain ⟨hinBe, hempty⟩ := get_moves_dest_empty hmv
  obtain ⟨hdeq, hd12⟩ := get_moves_diff hmv
  have hinBs : inB s.1 s.2 = true := inB_of_get_some hs
  have hse : s ≠ e := by
    intro h
    rw [h] at hd12
    simp at hd12
  have hmm : (make_move g s e t).2 =
      update_game_after_move (execute_board_move g p s e t).1
        (execute_board_move g p s e t).2 := by
    rw [make_move_success hs hside]
  rw [hmm]
  obtain ⟨hexH, hexI, hexRT, hexBT, hexPH, hexLen⟩ := execute_untouched g p s e t
  obtain ⟨hexR, hexB⟩ := execute_lists g p s e t
  obtain ⟨huR, huB, huH, huI, huBoard, huPH, huRT, huBT⟩ :=
    update_game_after_move_fields (execute_board_move g p s e t).1
      (execute_board_move g p s e t).2
  have hrec := execute_move_record g p s e t
  have hpm : (execute_board_move g p s e t).2.piece_moved = p := by rw [hrec]
  have htd : (execute_board_move g p s e t).2.turn_duration = t := by rw [hrec]
  have hsc : (execute_board_move g p s e t).2.start_coords = s := by rw [hrec]
  have hec : (execute_board_move g p s e t).2.end_coords = e := by rw [hrec]
  have hpc : (execute_board_move g p s e t).2.piece_captured =
      (if ((s.1 - e.1).natAbs == 2) = true then
        get_piece_at g.board (jump_mid s e) else none) := by rw [hrec]
  have hij : (execute_board_move g p s e t).2.is_jump = ((s.1 - e.1).natAbs == 2) := by
    rw [hrec]
    rfl
  have hprk : (execute_board_move g p s e t).2.is_promotion = true →
      p.kind = PieceKind.man := by
    rw [execute_promotion_flag]
    intro h
    simp only [Bool.and_eq_true, beq_iff_eq] at h
    exact h.1
  have hside' : p.is_player1 = (g.current_player_index == 0) := hside
  have hlast : (update_game_after_move (execute_board_move g p s e t).1
      (execute_board_move g p s e t).2).move_history.getLast? =
      some (execute_board_move g p s e t).2 := by
    rw [huH]
    simp
  rw [undo_last_move_eq _ _ hlast]
  have hlenG2 : (update_game_after_move (execute_board_move g p s e t).1
      (execute_board_move g p s e t).2).board.length = 64 := by
    rw [huBoard, hexLen, hlen]
  refine ⟨?_, ?_, ?_, ?_, ?_, ?_, ?_⟩
  · -- piece placement on every square
    intro q
    simp only [update_game_status_board, hpc, hpm, hsc, hec, hij]
    rcases hd12 with hd1 | hd2
    · have hdbeq : ((s.1 - e.1).natAbs == 2) = false := by rw [hd1]; rfl
      simp only [hdbeq, Bool.false_eq_true, if_false]
      rw [undo_b2_get hlenG2 _ hprk hinBs hinBe hse q]
      by_cases hqe : q = e
      · subst hqe
        rw [if_pos rfl, hempty]
      · rw [if_neg hqe]
        by_cases hqs : q = s
        · subst hqs
          rw [if_pos rfl, hs]
        · rw [if_neg hqs, huBoard, execute_board_eq]
          rw [get_set_other _ hqs, get_set_other _ hqe]
          simp only [hdbeq, Bool.false_eq_true, if_false]
    · have hdbeq : ((s.1 - e.1).natAbs == 2) = true := by
        rw [hd2]
        rfl
      obtain ⟨cap, hmid, hcapside⟩ := get_moves_jump_mid hmv hd2
      have hinBm : inB (jump_mid s e).1 (jump_mid s e).2 = true := inB_of_get_some hmid
      simp only [hdbeq, if_true, hmid]
      by_cases hqm : q = jump_mid s e
      · subst hqm
        rw [get_set_self _ ?hb2len hinBm, hmid]
        case hb2len =>
          split <;> simp [length_set_piece_at, hlenG2]
      · rw [get_set_other _ hqm]
        rw [undo_b2_get hlenG2 _ hprk hinBs hinBe hse q]
        by_cases hqe : q = e
        · subst hqe
          rw [if_pos rfl, hempty]
        · rw [if_neg hqe]
          by_cases hqs : q = s
          · subst hqs
            rw [if_pos rfl, hs]
          · rw [if_neg hqs, huBoard, execute_board_eq]
            rw [get_set_other _ hqs, get_set_other _ hqe]
            simp only [hdbeq, if_true]
            rw [get_set_other _ hqm]
  · -- turn owner
    simp only [update_game_status_index, huI, hexI]
    omega
  · -- red cumulative timer
    simp only [update_game_status_red_time, hpm, htd, huRT, hexRT, hexI]
    cases hp1 : p.is_player1 with
    | true =>
      rw [hp1] at hside'
      simp [← hside']
    | false =>
      rw [hp1] at hside'
      simp [← hside']
  · -- black cumulative timer
    simp only [update_game_status_black_time, hpm, htd, huBT, hexBT, hexI]
    cases hp1 : p.is_player1 with
    | true =>
      rw [hp1] at hside'
      simp [← hside']
    | false =>
      rw [hp1] at hside'
      simp [← hside']
  · -- move history
    simp only [update_game_status_history, huH, hexH]
    simp
  · -- red captured list
    simp only [update_game_status_red_captured, hpc, hpm]
    rcases hd12 with hd1 | hd2
    · have hdbeq : ((s.1 - e.1).natAbs == 2) = false := by rw [hd1]; rfl
      rw [hpc, hdbeq] at hexR
      simp only [Bool.false_eq_true, if_false, hpc, hdbeq] at hexR ⊢
      rw [huR, hexR]
    · have hdbeq : ((s.1 - e.1).natAbs == 2) = true := by
        rw [hd2]
        rfl
      obtain ⟨cap, hmid, hcapside⟩ := get_moves_jump_mid hmv hd2
      rw [hpc, hdbeq] at hexR
      simp only [if_true, hmid] at hexR
      simp only [hdbeq, if_true, hmid]
      cases hp1 : p.is_player1 with
      | true =>
        rw [hp1] at hexR
        simp only [if_true] at hexR
        simp only [if_true, huR, hexR]
      | false =>
        rw [hp1] at hexR
        simp only [Bool.false_eq_true, if_false] at hexR
        simp only [Bool.false_eq_true, if_false, huR, hexR]
        simp
  · -- black captured list
    simp only [update_game_status_black_captured, hpc, hpm]
    rcases hd12 with hd1 | hd2
    · have hdbeq : ((s.1 - e.1).natAbs == 2) = false := by rw [hd1]; rfl
      rw [hpc, hdbeq] at hexB
      simp only [Bool.false_eq_true, if_false, hpc, hdbeq] at hexB ⊢
      rw [huB, hexB]
    · have hdbeq : ((s.1 - e.1).natAbs == 2) = true := by
        rw [hd2]
        rfl
      obtain ⟨cap, hmid, hcapside⟩ := get_moves_jump_mid hmv hd2
      rw [hpc, hdbeq] at hexB
      simp only [if_true, hmid] at hexB
      simp only [hdbeq, if_true, hmid]
      cases hp1 : p.is_player1 with
      | true =>
        rw [hp1] at hexB
        simp only [if_true] at hexB
        simp only [if_true, huB, hexB]
        simp
      | false =>
        rw [hp1] at hexB
        simp only [Bool.false_eq_true, if_false] at hexB
        simp only [Bool.false_eq_true, if_false, huB, hexB]

/-- C2 witness: red's capturing jump (4,3)→(2,1) in `demo_game`, undone,
restores every modelled component. -/
theorem undo_round_trip_witness :
    (∀ q : Coord,
      get_piece_at (undo_last_move (make_move demo_game (4, 3) (2, 1) 5).2).board q =
        get_piece_at demo_game.board q) ∧
    (undo_last_move (make_move demo_game (4, 3) (2, 1) 5).2).current_player_index =
      demo_game.current_player_index ∧
    (undo_last_move (make_move demo_game (4, 3) (2, 1) 5).2).red_turn_time =
      demo_game.red_turn_time ∧
    (undo_last_move (make_move demo_game (4, 3) (2, 1) 5).2).black_turn_time =
      demo_game.black_turn_time ∧
    (undo_last_move (make_move demo_game (4, 3) (2, 1) 5).2).move_history =
      demo_game.move_history ∧
    (undo_last_move (make_move demo_game (4, 3) (2, 1) 5).2).red_captured =
      demo_game.red_captured ∧
    (undo_last_move (make_move demo_game (4, 3) (2, 1) 5).2).black_captured =
      demo_game.black_captured :=
  undo_round_trip demo_game (4, 3) (2, 1) 5 (by decide) (by decide) (by decide)

/-- Sum, over the distinct keys of the position-history mapping, of their
recorded occurrence counts. -/
def total_occurrences (g : Game) : Nat :=
  (g.position_history.dedup.map (fun k => g.position_history.count k)).sum

/-- States reachable from the initial position by legal `make_move` calls
and by `undo_last_move`. -/
inductive Reach : Game → Prop where
  | init : Reach initial_game
  | move (g : Game) (s e : Coord) (t : Int) : Reach g →
      e ∈ get_legal_moves_for_piece g s → Reach (make_move g s e t).2
  | undo (g : Game) : Reach g → Reach (undo_last_move g)

/-- States reachable from the initial position by `make_move` calls alone
(successful or failed, legal or not). -/
inductive ReachM : Game → Prop where
  | init : ReachM initial_game
  | move (g : Game) (s e : Coord) (t : Int) : ReachM g → ReachM (make_move g s e t).2

/-- One legal move followed by one undo, from the initial position. -/
def undo_demo_game : Game :=
  undo_last_move (make_move initial_game (5, 0) (4, 1) 0).2

/-- C3 counterexample: after a legal move and an undo (a reachable state),
the mapping's total recorded occurrences is 2 while the history length is 0;
undo does not decrement the repetition mapping. -/
theorem position_history_total_counterexample :
    Reach undo_demo_game ∧
    total_occurrences undo_demo_game ≠ undo_demo_game.move_history.length + 1 := by
  constructor
  · exact Reach.undo _ (Reach.move initial_game (5, 0) (4, 1) 0 Reach.init (by decide))
  · decide

/-- C3 amended: along `make_move`-only sequences (no undo) the mapping's
total recorded occurrences equals history length + 1. -/
theorem position_history_total_make_move_only (g : Game) (h : ReachM g) :
    total_occurrences g = g.move_history.length + 1 := by
  have key : ∀ g2 : Game, total_occurrences g2 = g2.position_history.length :=
    fun g2 => List.sum_map_count_dedup_eq_length _
  induction h with
  | init =>
    rw [key]
    rfl
  | move g s e t hr ih =>
    rw [key] at ih ⊢
    cases hgp : get_piece_at g.board s with
    | none =>
      unfold make_move
      rw [hgp]
      exact ih
    | some p =>
      by_cases hpl : p.is_player1 = currentIsPlayer1 g
      · rw [make_move_success hgp hpl]
        obtain ⟨hexH, _, _, _, hexPH, _⟩ := execute_untouched g p s e t
        obtain ⟨_, _, huH, _, _, huPH, _, _⟩ :=
          update_game_after_move_fields (execute_board_move g p s e t).1
            (execute_board_move g p s e t).2
        rw [huPH, hexPH, huH, hexH]
        simp [ih]
      · have hbne : (p.is_player1 != currentIsPlayer1 g) = true := by
          simp [bne_iff_ne, hpl]
        unfold make_move
        rw [hgp]
        simp only [hbne, if_true]
        exact ih

/-- C3-amended witness: the initial position records exactly one occurrence
with an empty history. -/
theorem position_history_total_make_move_only_witness :
    total_occurrences initial_game = initial_game.move_history.length + 1 :=
  position_history_total_make_move_only initial_game ReachM.init

/-- The last element of a list is a member. -/
theorem mem_of_getLast?_eq {α : Type} {l : List α} {a : α}
    (h : l.getLast? = some a) : a ∈ l := by
  obtain ⟨hne, rfl⟩ := List.mem_getLast?_eq_getLast (Option.mem_def.mpr h)
  exact List.getLast_mem hne

/-- Unfolding of the playable-square parity test. -/
theorem is_playable_iff {q : Coord} : is_playable q = true ↔ (q.1 + q.2) % 2 = 1 := by
  simp [is_playable]

/-- An in-bounds coordinate is the pair of casts of its components. -/
theorem coord_eta {q : Coord} (h1 : 0 ≤ q.1) (h3 : 0 ≤ q.2) :
    q = (Int.ofNat q.1.toNat, Int.ofNat q.2.toNat) := by
  have e1 : Int.ofNat q.1.toNat = q.1 := by
    rw [Int.ofNat_eq_natCast]
    omega
  have e2 : Int.ofNat q.2.toNat = q.2 := by
    rw [Int.ofNat_eq_natCast]
    omega
  rw [e1, e2]

/-- A generated destination of a piece on a playable square is playable. -/
theorem get_moves_playable {self : Piece} {b : Board} {start mv : Coord}
    (h : mv ∈ self.get_moves b start) (hp : is_playable start = true) :
    is_playable mv = true := by
  obtain ⟨d, hd1, hd2, hc⟩ := get_moves_spec h
  rw [is_playable_iff] at hp ⊢
  rcases hc with ⟨he, _⟩ | ⟨he, _⟩ <;> subst he <;> dsimp only <;>
    rcases hd1 with h1 | h1 <;> rcases hd2 with h2 | h2 <;> omega

/-- Pointwise implication gives a `countP` inequality. -/
theorem countP_le_of_imp {α : Type} (l : List α) (p q2 : α → Bool)
    (h : ∀ a ∈ l, p a = true → q2 a = true) : l.countP p ≤ l.countP q2 := by
  induction l with
  | nil => simp
  | cons a tl ih =>
    rw [List.countP_cons, List.countP_cons]
    have ht := ih fun x hx => h x (List.mem_cons_of_mem _ hx)
    by_cases hp : p a = true
    · rw [h a (List.mem_cons_self a tl) hp, hp]
      simp only [if_true]
      omega
    · have hfalse : p a = false := by simpa using hp
      rw [hfalse]
      simp only [Bool.false_eq_true, if_false]
      by_cases hq2 : q2 a = true
      · rw [hq2]
        simp only [if_true]
        omega
      · have hq2f : q2 a = false := by simpa using hq2
        rw [hq2f]
        simp only [Bool.false_eq_true, if_false]
        omega

/-- Well-formedness invariant for C9: a 64-square board whose occupied
squares are all playable, and a history of diagonal moves between playable
in-bounds squares of row (= column) distance 1 or 2. -/
def MoveOK (mv : Move) : Prop :=
  inB mv.start_coords.1 mv.start_coords.2 = true ∧
  inB mv.end_coords.1 mv.end_coords.2 = true ∧
  is_playable mv.start_coords = true ∧
  is_playable mv.end_coords = true ∧
  (mv.start_coords.1 - mv.end_coords.1).natAbs =
    (mv.start_coords.2 - mv.end_coords.2).natAbs ∧
  ((mv.start_coords.1 - mv.end_coords.1).natAbs = 1 ∨
    (mv.start_coords.1 - mv.end_coords.1).natAbs = 2)

/-- The reachable-state invariant: board size, playability of occupied
squares, and well-formedness of every recorded move. -/
def GameInv (g : Game) : Prop :=
  g.board.length = 64 ∧
  (∀ q : Coord, (get_piece_at g.board q).isSome = true → is_playable q = true) ∧
  (∀ mv ∈ g.move_history, MoveOK mv)

/-- The initial position satisfies the invariant. -/
theorem inv_init : GameInv initial_game := by
  refine ⟨by decide, ?_, by simp [initial_game, update_position_history]⟩
  have hb : ∀ r : Nat, r < 8 → ∀ c : Nat, c < 8 →
      (get_piece_at initial_game.board (Int.ofNat r, Int.ofNat c)).isSome = true →
      is_playable (Int.ofNat r, Int.ofNat c) = true := by decide
  intro q hq
  by_cases hinB : inB q.1 q.2 = true
  · rcases inB_iff.mp hinB with ⟨h1, h2, h3, h4⟩
    rw [coord_eta h1 h3] at hq ⊢
    exact hb q.1.toNat (by omega) q.2.toNat (by omega) hq
  · rw [get_piece_at_oob hinB] at hq
    cases hq

/-- The midpoint column of a column-distance-2 move is the average column. -/
theorem jump_mid_col {s e : Coord} (hdist : (s.2 - e.2).natAbs = 2) :
    2 * (jump_mid s e).2 = s.2 + e.2 := by
  unfold jump_mid
  dsimp only
  exact two_mul_fdiv_two (by omega)

/-- Clearing a square always leaves it empty, on boards of any length. -/
theorem get_set_none_self (b : Board) (q : Coord) :
    get_piece_at (set_piece_at b q none) q = none := by
  unfold get_piece_at set_piece_at
  by_cases hb : inB q.1 q.2 = true
  · simp only [hb, if_true]
    by_cases hlt : bIdx q < b.length
    · simp [List.getD, List.getElem?_set_self, hlt]
    · rw [List.getD_eq_default]
      rw [List.length_set]
      omega
  · simp [hb]

/-- Occupancy in the undo reconstruction layer comes from the start square
or from the underlying board. -/
theorem undo_b2_isSome {B : Board} {s e : Coord} {p : Piece} {man : Piece}
    (promo : Bool) (q : Coord)
    (hq : (get_piece_at (if promo then
        set_piece_at (set_piece_at (set_piece_at B s (some p)) s (some man)) e none
      else set_piece_at (set_piece_at B s (some p)) e none) q).isSome = true) :
    q = s ∨ (get_piece_at B q).isSome = true := by
  by_cases hqs : q = s
  · exact Or.inl hqs
  · right
    cases promo with
    | false =>
      simp only [Bool.false_eq_true, if_false] at hq
      by_cases hqe : q = e
      · subst hqe
        rw [get_set_none_self] at hq
        cases hq
      · rw [get_set_other _ hqe, get_set_other _ hqs] at hq
        exact hq
    | true =>
      simp only [if_true] at hq
      by_cases hqe : q = e
      · subst hqe
        rw [get_set_none_self] at hq
        cases hq
      · rw [get_set_other _ hqe, get_set_other _ hqs, get_set_other _ hqs] at hq
        exact hq

/-- The invariant is preserved by making a legal move. -/
theorem inv_move {g : Game} {s e : Coord} {t : Int} (hi : GameInv g)
    (hm : e ∈ get_legal_moves_for_piece g s) : GameInv (make_move g s e t).2 := by
  obtain ⟨hlen, hocc, hhist⟩ := hi
  obtain ⟨p, hs, hside, hmv⟩ := legal_moves_sub hm
  obtain ⟨hinBe, hempty⟩ := get_moves_dest_empty hmv
  obtain ⟨hdeq, hd12⟩ := get_moves_diff hmv
  have hinBs : inB s.1 s.2 = true := inB_of_get_some hs
  have hps : is_playable s = true := hocc s (by rw [hs]; rfl)
  have hpe : is_playable e = true := get_moves_playable hmv hps
  have hmm : (make_move g s e t).2 =
      update_game_after_move (execute_board_move g p s e t).1
        (execute_board_move g p s e t).2 := by
    rw [make_move_success hs hside]
  rw [hmm]
  obtain ⟨hexH, _, _, _, _, hexLen⟩ := execute_untouched g p s e t
  obtain ⟨_, _, huH, _, huBoard, _, _, _⟩ :=
    update_game_after_move_fields (execute_board_move g p s e t).1
      (execute_board_move g p s e t).2
  refine ⟨?_, ?_, ?_⟩
  · rw [huBoard, hexLen, hlen]
  · intro q hq
    rw [huBoard, execute_board_eq] at hq
    by_cases hqs : q = s
    · subst hqs
      rw [get_set_none_self] at hq
      cases hq
    · rw [get_set_other _ hqs] at hq
      by_cases hqe : q = e
      · subst hqe
        exact hpe
      · rw [get_set_other _ hqe] at hq
        by_cases hqm : q = jump_mid s e
        · by_cases hdb : ((s.1 - e.1).natAbs == 2) = true
          · rw [if_pos hdb] at hq
            subst hqm
            rw [get_set_none_self] at hq
            cases hq
          · rw [if_neg hdb] at hq
            exact hocc q hq
        · rw [mid_board_get g s e hqm] at hq
          exact hocc q hq
  · intro mv2 hmv2
    rw [huH, hexH] at hmv2
    rcases List.mem_append.mp hmv2 with hold | hnew
    · exact hhist mv2 hold
    · rw [List.mem_singleton] at hnew
      subst hnew
      rw [execute_move_record]
      exact ⟨hinBs, hinBe, hps, hpe, hdeq, hd12⟩

/-- The invariant is preserved by undoing the last move. -/
theorem inv_undo {g : Game} (hi : GameInv g) : GameInv (undo_last_move g) := by
  obtain ⟨hlen, hocc, hhist⟩ := hi
  cases hlast : g.move_history.getLast? with
  | none =>
    unfold undo_last_move
    rw [hlast]
    exact ⟨hlen, hocc, hhist⟩
  | some mv =>
    have hmemh := mem_of_getLast?_eq hlast
    obtain ⟨hbs, hbe, hps, hpe, hdeq, hd12⟩ := hhist mv hmemh
    rw [undo_last_move_eq g mv hlast]
    refine ⟨?_, ?_, ?_⟩
    · simp only [update_game_status_board]
      rcases hpc2 : mv.piece_captured with _ | cp <;> simp only [hpc2] <;>
        by_cases hj : mv.is_jump = true <;>
        by_cases hp2 : mv.is_promotion = true <;>
        simp [hj, hp2, length_set_piece_at, hlen]
    · intro q hq
      simp only [update_game_status_board] at hq
      rcases hpc2 : mv.piece_captured with _ | cp
      · simp only [hpc2] at hq
        rcases undo_b2_isSome mv.is_promotion q hq with hqs | hq2
        · subst hqs
          exact hps
        · exact hocc q hq2
      · simp only [hpc2] at hq
        by_cases hj : mv.is_jump = true
        · simp only [hj, if_true] at hq
          have hrow2 : (mv.start_coords.1 - mv.end_coords.1).natAbs = 2 := by
            have := hj
            unfold Move.is_jump at this
            simpa using this
          have hcol2 : (mv.start_coords.2 - mv.end_coords.2).natAbs = 2 := by
            omega
          have hm1 := jump_mid_row hrow2
          have hm2 := jump_mid_col hcol2
          by_cases hqm : q = jump_mid mv.start_coords mv.end_coords
          · subst hqm
            rcases inB_iff.mp hbs with ⟨a1, a2, a3, a4⟩
            rcases inB_iff.mp hbe with ⟨b1, b2, b3, b4⟩
            rw [is_playable_iff] at hps hpe ⊢
            omega
          · rw [get_set_other _ hqm] at hq
            rcases undo_b2_isSome mv.is_promotion q hq with hqs | hq2
            · subst hqs
              exact hps
            · exact hocc q hq2
        · simp only [hj, Bool.false_eq_true, if_false] at hq
          rcases undo_b2_isSome mv.is_promotion q hq with hqs | hq2
          · subst hqs
            exact hps
          · exact hocc q hq2
    · simp only [update_game_status_history]
      intro mv2 hm2
      exact hhist mv2 (g.move_history.dropLast_sublist.subset hm2)

/-- Every reachable state satisfies the invariant. -/
theorem reach_inv {g : Game} (h : Reach g) : GameInv g := by
  induction h with
  | init => exact inv_init
  | move g s e t hr hm ih => exact inv_move ih hm
  | undo g hr ih => exact inv_undo ih

/-- C9: in every state reachable by legal moves and undos, occupied squares
are playable (row+column odd) and there are at most 32 occupied squares. -/
theorem playable_squares_invariant (g : Game) (h : Reach g) :
    (∀ q : Coord, (get_piece_at g.board q).isSome = true → is_playable q = true) ∧
    iter_squares.countP (fun q => (get_piece_at g.board q).isSome) ≤ 32 := by
  obtain ⟨hlen, hocc, hhist⟩ := reach_inv h
  refine ⟨hocc, ?_⟩
  have h32 : iter_squares.countP (fun q => is_playable q) = 32 := by decide
  calc iter_squares.countP (fun q => (get_piece_at g.board q).isSome)
      ≤ iter_squares.countP (fun q => is_playable q) :=
        countP_le_of_imp _ _ _ (fun q _ hq => hocc q hq)
    _ = 32 := h32

/-- C9 witness: the initial position — reachable by the empty sequence — has
all 24 pieces on playable squares. -/
theorem playable_squares_invariant_witness :
    (∀ q : Coord,
      (get_piece_at initial_game.board q).isSome = true → is_playable q = true) ∧
    iter_squares.countP (fun q => (get_piece_at initial_game.board q).isSome) ≤ 32 :=
  playable_squares_invariant initial_game Reach.init

/-- The one-pass fold of `to_pdn` builds, for each side, exactly the
K-prefixed square numbers of that side's occupied playable squares, in scan
order. -/
theorem pdn_fold_spec (g : Game) (l : List Coord) (acc : List String × List String) :
    l.foldl
      (fun (acc : List String × List String) p =>
        if is_playable p then
          match get_piece_at g.board p with
          | some piece =>
            let piece_str := toString (pdn_square_num p)
            let piece_str := if piece.kind == .king then "K" ++ piece_str else piece_str
            if piece.is_player1 then (acc.1 ++ [piece_str], acc.2)
            else (acc.1, acc.2 ++ [piece_str])
          | none => acc
        else acc)
      acc =
    (acc.1 ++ (l.filter (fun p =>
        is_playable p &&
          match get_piece_at g.board p with
          | some piece => piece.is_player1 == true
          | none => false)).map
      (fun p =>
        (match get_piece_at g.board p with
         | some piece =>
           if piece.kind == .king then "K" ++ toString (pdn_square_num p)
           else toString (pdn_square_num p)
         | none => "")),
     acc.2 ++ (l.filter (fun p =>
        is_playable p &&
          match get_piece_at g.board p with
          | some piece => piece.is_player1 == false
          | none => false)).map
      (fun p =>
        (match get_piece_at g.board p with
         | some piece =>
           if piece.kind == .king then "K" ++ toString (pdn_square_num p)
           else toString (pdn_square_num p)
         | none => ""))) := by
  induction l generalizing acc with
  | nil => simp
  | cons a tl ih =>
    rw [List.foldl_cons, List.filter_cons, List.filter_cons]
    by_cases hpl : is_playable a = true
    · cases hgp : get_piece_at g.board a with
      | none =>
        simp only [hpl, if_true, hgp, Bool.true_and]
        rw [ih]
        simp only [Bool.false_eq_true, if_false]
      | some piece =>
        cases hp1 : piece.is_player1 with
        | true =>
          simp only [hpl, if_true, hgp, hp1, Bool.true_and]
          rw [ih]
          simp [hgp]
        | false =>
          simp only [hpl, if_true, hgp, hp1, Bool.true_and, Bool.false_eq_true, if_false]
          rw [ih]
          simp [hgp]
    · have hplf : is_playable a = false := by simpa using hpl
      simp only [hplf, Bool.false_eq_true, if_false, Bool.false_and]
      rw [ih]

/-- C8: the advisory square-to-coordinate mapping inverts the encoder's
numbering — every square number 1-32 maps to a playable in-bounds square
that the encoder numbers identically — and the encoder output is the
bracketed `[<turn>:<red squares>:<black squares>]` string with a one-letter
turn code and a K prefix on king squares. -/
theorem pdn_square_numbering :
    (∀ n : Nat, n < 33 → 1 ≤ n →
      is_playable (square_to_coords (Int.ofNat n)) = true ∧
      inB (square_to_coords (Int.ofNat n)).1 (square_to_coords (Int.ofNat n)).2 = true ∧
      pdn_square_num (square_to_coords (Int.ofNat n)) = n) ∧
    (∀ g : Game, to_pdn g =
      "[" ++ (if currentIsPlayer1 g then "R" else "B") ++ ":" ++
        String.intercalate "," (pdn_side_strings g true) ++ ":" ++
        String.intercalate "," (pdn_side_strings g false) ++ "]") := by
  constructor
  · decide
  · intro g
    unfold to_pdn pdn_side_strings
    rw [pdn_fold_spec g iter_squares ([], [])]
    simp

/-- C8 witness: square 11 decodes to (2,5), a playable square numbered 11 by
the encoder, and the initial position encodes to the documented bracketed
shape. -/
theorem pdn_square_numbering_witness :
    (is_playable (square_to_coords (Int.ofNat 11)) = true ∧
      inB (square_to_coords (Int.ofNat 11)).1 (square_to_coords (Int.ofNat 11)).2 = true ∧
      pdn_square_num (square_to_coords (Int.ofNat 11)) = 11) ∧
    to_pdn initial_game =
      "[" ++ (if currentIsPlayer1 initial_game then "R" else "B") ++ ":" ++
        String.intercalate "," (pdn_side_strings initial_game true) ++ ":" ++
        String.intercalate "," (pdn_side_strings initial_game false) ++ "]" :=
  ⟨pdn_square_numbering.1 11 (by decide) (by decide),
   pdn_square_numbering.2 initial_game⟩
